import Mathlib

/-!
Verification of the FMUSimulator simulation driver (src/main.c).

The driver integrates an FMI 2.0 model-exchange FMU with fixed-step forward
Euler, detecting time, state and step events and running the discrete-update
(event) iteration.  The FMU itself is an external collaborator reached
through a function-pointer table (src/fmi2.c); here it is a record of pure
functions over an abstract model-state type, each returning the status the
C driver checks with `fmi2Flag > fmi2Warning`.  Machine doubles are embedded
as rationals.  The drivers additionally return a trace of the model calls
they issued, so call-discipline properties (which calls happen, how often)
can be stated; the trace is an observation and never feeds back into the
computation.
-/

namespace FMUSim

set_option maxHeartbeats 1600000
set_option maxRecDepth 1000000

/-- FMI 2.0 status codes, in the order of the C `fmi2Status` enumeration
(OK = 0, Warning = 1, Discard = 2, Error = 3, Fatal = 4, Pending = 5). -/
inductive Fmi2Status where
  | ok
  | warning
  | discard
  | error
  | fatal
  | pending
  deriving Repr, DecidableEq

/-- Numeric value of a status, as in the C enumeration. -/
def Fmi2Status.toNat : Fmi2Status → Nat
  | .ok => 0
  | .warning => 1
  | .discard => 2
  | .error => 3
  | .fatal => 4
  | .pending => 5

/-- The driver's failure test `fmi2Flag > fmi2Warning`. -/
def statusAbort (s : Fmi2Status) : Bool := decide (1 < s.toNat)

/-- The `fmi2EventInfo` record filled in by `fmi2NewDiscreteStates`. -/
structure Fmi2EventInfo where
  newDiscreteStatesNeeded : Bool
  terminateSimulation : Bool
  nominalsOfContinuousStatesChanged : Bool
  valuesOfContinuousStatesChanged : Bool
  nextEventTimeDefined : Bool
  nextEventTime : ℚ
  deriving Repr, DecidableEq

/-- Modelled from the spec: the variable kind of a `VariableDescriptor`
("real | integer"); the descriptor list comes from the model metadata
provider (output.c), which is not among the repository's staged sources. -/
inductive VarType where
  | real
  | integer
  deriving Repr, DecidableEq

/-- Modelled from the spec: a `VariableDescriptor` — name, kind, and the
value-reference handle used to fetch its value from the model (the C
`ScalarVariable` consumed by the drivers' output-recording loops). -/
structure ScalarVariable where
  name : String
  valueReference : Nat
  type : VarType
  deriving Repr, DecidableEq

instance : Inhabited ScalarVariable := ⟨⟨"", 0, .real⟩⟩

/-- One model call as the driver issued it, with the data the call reported
that matters to the call-discipline claims: `newDiscreteStates` carries the
flags the model returned, `enterContinuousTimeMode` carries the value of
`eventInfo.newDiscreteStatesNeeded` at the moment of the call,
`completedIntegratorStep` carries the reported step-event and
terminate flags. -/
inductive Call where
  | instantiate
  | setupExperiment
  | enterInitializationMode
  | exitInitializationMode
  | newDiscreteStates (needed : Bool) (term : Bool)
  | enterContinuousTimeMode (neededAtCall : Bool)
  | enterEventMode
  | getContinuousStates (x : List ℚ)
  | getDerivatives (xdot : List ℚ)
  | setTime (t : ℚ)
  | setContinuousStates (x : List ℚ)
  | getEventIndicators (z : List ℚ)
  | completedIntegratorStep (stepEvent : Bool) (term : Bool)
  | getReal (vr : Nat)
  | getInteger (vr : Nat)
  | terminateCall
  | freeInstance
  deriving Repr, DecidableEq

/-- The FMU as seen by the driver: the function-pointer table of src/fmi2.c,
as pure functions over an abstract model state `σ`.  Each lifecycle and
stepping call returns the `fmi2Status` the driver checks; `getReal` and
`getInteger` have their status ignored by the drivers' recording loops, as
in the C code.  `nx`, `nz` and `variables` stand for
`getNumberOfContinuousStates`, `getNumberOfEventIndicators` and
`get_variable_list`/`get_variable_count` (model metadata; the C field is named `variables`, a reserved word in Lean). -/
structure FMUModel (σ : Type) where
  nx : Nat
  nz : Nat
  varList : List ScalarVariable
  instantiate : Option σ
  setupExperiment : σ → Fmi2Status × σ
  enterInitializationMode : σ → Fmi2Status × σ
  exitInitializationMode : σ → Fmi2Status × σ
  newDiscreteStates : σ → Fmi2Status × Fmi2EventInfo × σ
  enterContinuousTimeMode : σ → Fmi2Status × σ
  enterEventMode : σ → Fmi2Status × σ
  getContinuousStates : σ → Fmi2Status × List ℚ × σ
  getDerivatives : σ → Fmi2Status × List ℚ × σ
  setTime : ℚ → σ → Fmi2Status × σ
  setContinuousStates : List ℚ → σ → Fmi2Status × σ
  getEventIndicators : σ → Fmi2Status × List ℚ × σ
  completedIntegratorStep : σ → Fmi2Status × Bool × Bool × σ
  getReal : Nat → σ → ℚ × σ
  getInteger : Nat → σ → Int × σ
  terminate : σ → Fmi2Status × σ

/-- The C `SimulationState` struct (src/main.c lines 40-60).  The same record
also holds the run-to-completion driver's local variables, which are the
same data. -/
structure SimulationState (σ : Type) where
  component : σ
  nx : Nat
  nz : Nat
  x : List ℚ
  xdot : List ℚ
  z : List ℚ
  prez : List ℚ
  time : ℚ
  h : ℚ
  tEnd : ℚ
  eventInfo : Fmi2EventInfo
  varList : List ScalarVariable
  nVariables : Nat
  output : List (List ℚ)
  nSteps : Nat
  nTimeEvents : Nat
  nStateEvents : Nat
  nStepEvents : Nat
  deriving Repr, DecidableEq

/-- Capacity of one output row: C allocates `calloc((int)tEnd/h + 10, ...)`
(src/main.c lines 232 and 554).  The C cast truncates `tEnd` toward zero and
the resulting double is truncated again when converted to `size_t`; for the
nonnegative `tEnd` and positive `h` of a valid run both truncations are
floors. -/
def outCap (tEnd h : ℚ) : Nat := (⌊((⌊tEnd⌋.toNat : ℚ) / h) + 10⌋).toNat

/-- Time advance of one step (src/main.c lines 305-310 and 604-609):
`time = min(time + h, tEnd)`, then a time event is flagged iff
`nextEventTimeDefined && time >= nextEventTime`, and when flagged the time
is clamped exactly to `nextEventTime`.  Returns (timeEvent, new time). -/
def advanceTime (time h tEnd : ℚ) (ei : Fmi2EventInfo) : Bool × ℚ :=
  let t := min (time + h) tEnd
  let timeEvent := ei.nextEventTimeDefined && decide (ei.nextEventTime ≤ t)
  (timeEvent, if timeEvent then ei.nextEventTime else t)

/-- Forward Euler update (src/main.c lines 317 and 617-619):
`x[i] += dt * xdot[i]` for every state index. -/
def eulerUpdate (x xdot : List ℚ) (dt : ℚ) : List ℚ :=
  (List.zip x xdot).map (fun p => p.1 + dt * p.2)

/-- State-event detection (src/main.c lines 328-329 and 634-637):
`stateEvent = false; for i < nz: stateEvent = stateEvent || (prez[i]*z[i] < 0)`,
an un-short-circuited OR over the whole indicator vector. -/
def stateEventCheck (prez z : List ℚ) : Bool :=
  (List.zip prez z).foldl (fun acc p => acc || decide (p.1 * p.2 < 0)) false

/-- Write one value into the 2-D output buffer at `output[row][col]`.
In-bounds writes match the C array write; the C code performs no bounds
check (see the C8 analysis), and an out-of-range `List.set` is a no-op. -/
def writeOut (output : List (List ℚ)) (row col : Nat) (v : ℚ) : List (List ℚ) :=
  output.set row ((output.getD row []).set col v)

/-- Result of the discrete-update (event) iteration loop. -/
inductive IterOut (σ : Type) where
  | aborted (st : Fmi2Status) (ei : Fmi2EventInfo) (c : σ)
  | done (ei : Fmi2EventInfo) (c : σ)
  | fuelGone (ei : Fmi2EventInfo) (c : σ)
  deriving DecidableEq

/-- The discrete-update iteration (src/main.c lines 261-265, 369-381,
530-538, 667-671): repeatedly call `newDiscreteStates` while
`newDiscreteStatesNeeded && !terminateSimulation`; abort on a status
stricter than Warning.  The C loop has no iteration cap, so the embedding
carries fuel; `fuelGone` marks the point where the C program would still be
iterating. -/
def eventIteration (m : FMUModel σ) : Nat → Fmi2EventInfo → σ → IterOut σ × List Call
  | fuel, ei, c =>
    if ei.newDiscreteStatesNeeded && !ei.terminateSimulation then
      match fuel with
      | 0 => (.fuelGone ei c, [])
      | fuel + 1 =>
        let r := m.newDiscreteStates c
        let entry := Call.newDiscreteStates r.2.1.newDiscreteStatesNeeded
          r.2.1.terminateSimulation
        if statusAbort r.1 then (.aborted r.1 r.2.1 r.2.2, [entry])
        else
          let rest := eventIteration m fuel r.2.1 r.2.2
          (rest.1, entry :: rest.2)
    else (.done ei c, [])

/-- The output-recording loop body over the listed variable indices
(src/main.c lines 280-289, 391-399, 557-568, 683-695): for each index `i`,
fetch the variable's value (`getReal` for REAL, `getInteger` for INTEGER)
and store it at `output[i + 1][col]`. -/
def recordOutputsAux (m : FMUModel σ) (vars : List ScalarVariable) (col : Nat) :
    List Nat → List (List ℚ) → σ → List (List ℚ) × σ × List Call
  | [], output, c => (output, c, [])
  | i :: rest, output, c =>
    let v := vars.getD i default
    match v.type with
    | .real =>
      let r := m.getReal v.valueReference c
      let next := recordOutputsAux m vars col rest (writeOut output (i + 1) col r.1) r.2
      (next.1, next.2.1, Call.getReal v.valueReference :: next.2.2)
    | .integer =>
      let r := m.getInteger v.valueReference c
      let next := recordOutputsAux m vars col rest
        (writeOut output (i + 1) col ((r.1 : ℚ))) r.2
      (next.1, next.2.1, Call.getInteger v.valueReference :: next.2.2)

/-- The output-recording loop `for (i = 0; i < nVariables - 1; i++)`: its
index set is `List.range (nVariables - 1)` — the last declared variable is
never visited (see C9). -/
def recordOutputs (m : FMUModel σ) (vars : List ScalarVariable) (nVariables : Nat)
    (col : Nat) (output : List (List ℚ)) (c : σ) : List (List ℚ) × σ × List Call :=
  recordOutputsAux m vars col (List.range (nVariables - 1)) output c

/-- Intermediate outcome of a straight-line run of model calls inside one
integration step: either some call returned a status stricter than Warning
(the driver gives up) or all calls succeeded. -/
inductive Phase (σ : Type) where
  | abort (st : Fmi2Status) (s : SimulationState σ) (tr : List Call)
  | ok (s : SimulationState σ) (tr : List Call)
  deriving DecidableEq

/-- Fetch the current continuous states and derivatives (src/main.c lines
296-301 and 594-599, identical in both drivers): two distinct calls, the
state always re-fetched from the model. -/
def fetchStates (m : FMUModel σ) (s : SimulationState σ) : Phase σ :=
  let r1 := m.getContinuousStates s.component
  let s1 : SimulationState σ := { s with component := r1.2.2, x := r1.2.1 }
  let tr1 : List Call := [.getContinuousStates r1.2.1]
  if statusAbort r1.1 then .abort r1.1 s1 tr1 else
  let r2 := m.getDerivatives s1.component
  let s2 : SimulationState σ := { s1 with component := r2.2.2, xdot := r2.2.1 }
  let tr2 : List Call := tr1 ++ [.getDerivatives r2.2.1]
  if statusAbort r2.1 then .abort r2.1 s2 tr2 else .ok s2 tr2

/-- Advance time, clamp to a pending time event, push the new time to the
model and apply the forward Euler update with the actual increment
`dt = time - tPre` (src/main.c lines 305-319 and 603-622, identical in both
drivers).  Also returns the step's `timeEvent` flag. -/
def advanceAndStep (m : FMUModel σ) (s : SimulationState σ) : Bool × Phase σ :=
  let tPre : ℚ := s.time
  let a := advanceTime s.time s.h s.tEnd s.eventInfo
  let s3 : SimulationState σ := { s with time := a.2 }
  let dt : ℚ := s3.time - tPre
  let r3 := m.setTime s3.time s3.component
  let s4 : SimulationState σ := { s3 with component := r3.2 }
  let tr3 : List Call := [.setTime s3.time]
  if statusAbort r3.1 then (a.1, .abort r3.1 s4 tr3) else
  let s5 : SimulationState σ := { s4 with x := eulerUpdate s4.x s4.xdot dt }
  let r4 := m.setContinuousStates s5.x s5.component
  let s6 : SimulationState σ := { s5 with component := r4.2 }
  let tr4 : List Call := tr3 ++ [.setContinuousStates s5.x]
  if statusAbort r4.1 then (a.1, .abort r4.1 s6 tr4) else (a.1, .ok s6 tr4)

/-- Save the event indicators, recompute them, detect a state event, and
make the end-of-step completion call (src/main.c lines 324-335 and 626-644,
identical in both drivers).  Returns (stateEvent, stepEvent,
terminateSimulation, phase outcome). -/
def checkEvents (m : FMUModel σ) (s : SimulationState σ) :
    Bool × Bool × Bool × Phase σ :=
  let s7 : SimulationState σ := { s with prez := s.z }
  let r5 := m.getEventIndicators s7.component
  let s8 : SimulationState σ := { s7 with component := r5.2.2, z := r5.2.1 }
  let tr5 : List Call := [.getEventIndicators r5.2.1]
  if statusAbort r5.1 then (false, false, false, .abort r5.1 s8 tr5) else
  let stateEvent : Bool := stateEventCheck s8.prez s8.z
  let r6 := m.completedIntegratorStep s8.component
  let s9 : SimulationState σ := { s8 with component := r6.2.2.2 }
  let tr6 : List Call := tr5 ++ [.completedIntegratorStep r6.2.1 r6.2.2.1]
  if statusAbort r6.1 then (stateEvent, r6.2.1, r6.2.2.1, .abort r6.1 s9 tr6)
  else (stateEvent, r6.2.1, r6.2.2.1, .ok s9 tr6)

/-- Outcome of the integration part of one step (everything up to and
including `completedIntegratorStep`): an aborting status, or the stepped
session together with the step's event flags and the reported
`terminateSimulation`. -/
inductive CoreOut (σ : Type) where
  | abort (st : Fmi2Status) (s : SimulationState σ) (tr : List Call)
  | stepped (s : SimulationState σ)
      (timeEvent stateEvent stepEvent termSim : Bool) (tr : List Call)
  deriving DecidableEq

/-- The integration part of one step, common to both drivers (src/main.c
lines 296-335 and 594-644 are the same code): fetch states and derivatives,
advance and clamp time, Euler-update and push the states, then detect the
state and step events. -/
def doStepCore (m : FMUModel σ) (s : SimulationState σ) : CoreOut σ :=
  match fetchStates m s with
  | .abort st s2 tr => .abort st s2 tr
  | .ok s2 tr2 =>
    match advanceAndStep m s2 with
    | (te, .abort st s6 tr) => .abort st s6 (tr2 ++ tr)
    | (te, .ok s6 tr4) =>
      match checkEvents m s6 with
      | (se, ste, term, .abort st s9 tr) => .abort st s9 (tr2 ++ tr4 ++ tr)
      | (se, ste, term, .ok s9 tr6) =>
        .stepped s9 te se ste term (tr2 ++ tr4 ++ tr6)

/-- Outcome of the event-handling part of one step. -/
inductive EventOut (σ : Type) where
  | abort (st : Fmi2Status) (s : SimulationState σ) (tr : List Call)
  | term (s : SimulationState σ) (tr : List Call)
  | ok (s : SimulationState σ) (tr : List Call)
  | fuelGone (s : SimulationState σ) (tr : List Call)
  deriving DecidableEq

/-- The event-handling part of one step, common to both drivers
(src/main.c lines 344-390 and 654-680 are the same code up to logging):
when any of the three flags is set, enter event mode, bump the matching
counters, run the discrete-update iteration, and — unless termination was
requested — re-enter continuous-time mode. -/
def handleEvents (m : FMUModel σ) (fuelIter : Nat)
    (timeEvent stateEvent stepEvent : Bool) (s : SimulationState σ) : EventOut σ :=
  if (timeEvent || stateEvent || stepEvent) = true then
    let r7 := m.enterEventMode s.component
    let s10 : SimulationState σ := { s with component := r7.2 }
    let tr7 : List Call := [.enterEventMode]
    if statusAbort r7.1 then .abort r7.1 s10 tr7 else
    let s11 : SimulationState σ := { s10 with
      nTimeEvents := s10.nTimeEvents + (if timeEvent then 1 else 0),
      nStateEvents := s10.nStateEvents + (if stateEvent then 1 else 0),
      nStepEvents := s10.nStepEvents + (if stepEvent then 1 else 0) }
    let ei0 : Fmi2EventInfo := { s11.eventInfo with
      newDiscreteStatesNeeded := true, terminateSimulation := false }
    match eventIteration m fuelIter ei0 s11.component with
    | (.aborted st ei c, itr) =>
      .abort st { s11 with component := c, eventInfo := ei } (tr7 ++ itr)
    | (.fuelGone ei c, itr) =>
      .fuelGone { s11 with component := c, eventInfo := ei } (tr7 ++ itr)
    | (.done ei c, itr) =>
      let s12 : SimulationState σ := { s11 with component := c, eventInfo := ei }
      let tr8 : List Call := tr7 ++ itr
      if ei.terminateSimulation then .term s12 tr8 else
      let r8 := m.enterContinuousTimeMode s12.component
      let s13 : SimulationState σ := { s12 with component := r8.2 }
      let tr9 : List Call := tr8 ++ [.enterContinuousTimeMode ei.newDiscreteStatesNeeded]
      if statusAbort r8.1 then .abort r8.1 s13 tr9 else .ok s13 tr9
  else .ok s []

/-- Outcome of one `simulationDoStep` call: the status the C function
returns, the updated session, and the trace of model calls; `fuelGone`
marks a discrete-update iteration the C program would still be running. -/
inductive StepOut (σ : Type) where
  | ret (st : Fmi2Status) (s : SimulationState σ) (tr : List Call)
  | fuelGone (s : SimulationState σ) (tr : List Call)
  deriving DecidableEq

/-- The shared tail of a successful step (src/main.c lines 391-400 and
682-698): record one output column at index `nSteps`, then `nSteps++` and
return `fmi2OK`. -/
def finishStep (m : FMUModel σ) (s : SimulationState σ) (tr : List Call) : StepOut σ :=
  let r := recordOutputs m s.varList s.nVariables s.nSteps s.output s.component
  .ret .ok { s with output := r.1, component := r.2.1, nSteps := s.nSteps + 1 } (tr ++ r.2.2)

/-- One externally-stepped simulation step: `simulationDoStep`
(src/main.c lines 582-699).  An already-finished session is discarded
up front; the reported `terminateSimulation` of `completedIntegratorStep`
takes priority over event handling and is stored in the session's event
info; a terminate reported by the discrete-update iteration ends the step
with `fmi2OK` (the iteration already stored it in the session). -/
def simulationDoStep (m : FMUModel σ) (fuelIter : Nat) (s : SimulationState σ) :
    StepOut σ :=
  if (decide (s.tEnd ≤ s.time) || s.eventInfo.terminateSimulation) = true then
    .ret .discard s []
  else
    match doStepCore m s with
    | .abort st s2 tr => .ret st s2 tr
    | .stepped s9 timeEvent stateEvent stepEvent termSim tr6 =>
      if termSim then
        .ret .ok
          { s9 with eventInfo := { s9.eventInfo with terminateSimulation := true } } tr6
      else
        match handleEvents m fuelIter timeEvent stateEvent stepEvent s9 with
        | .abort st s2 tr => .ret st s2 (tr6 ++ tr)
        | .term s2 tr => .ret .ok s2 (tr6 ++ tr)
        | .fuelGone s2 tr => .fuelGone s2 (tr6 ++ tr)
        | .ok s2 tr => finishStep m s2 (tr6 ++ tr)

/-- Outcome of one iteration of the run-to-completion loop body: keep
looping, leave the loop by `break` (model-requested termination), leave the
whole function by `return error(...)`, or run out of fuel inside the
discrete-update iteration. -/
inductive BodyOut (σ : Type) where
  | next (s : SimulationState σ) (tr : List Call)
  | stop (s : SimulationState σ) (tr : List Call)
  | failure (st : Fmi2Status) (s : SimulationState σ) (tr : List Call)
  | fuelGone (s : SimulationState σ) (tr : List Call)
  deriving DecidableEq

/-- The shared tail of a successful loop iteration of `simulate`
(src/main.c lines 391-400): record one output column, `nSteps++`, continue
the loop. -/
def finishBody (m : FMUModel σ) (s : SimulationState σ) (tr : List Call) : BodyOut σ :=
  let r := recordOutputs m s.varList s.nVariables s.nSteps s.output s.component
  .next { s with output := r.1, component := r.2.1, nSteps := s.nSteps + 1 } (tr ++ r.2.2)

/-- One iteration of the run-to-completion simulation loop of `simulate`
(src/main.c lines 294-401).  The locals of `simulate` (time, x, xdot, z,
prez, eventInfo, the counters, the output buffer) are carried in the same
`SimulationState` record the externally-stepped driver uses; they are the
same data.  Unlike `simulationDoStep`, a terminate reported by
`completedIntegratorStep` leaves the loop by `break` without writing the
flag anywhere, and an error status makes the whole driver return. -/
def simulateBody (m : FMUModel σ) (fuelIter : Nat) (s : SimulationState σ) :
    BodyOut σ :=
  match doStepCore m s with
  | .abort st s2 tr => .failure st s2 tr
  | .stepped s9 timeEvent stateEvent stepEvent termSim tr6 =>
    if termSim then .stop s9 tr6
    else
      match handleEvents m fuelIter timeEvent stateEvent stepEvent s9 with
      | .abort st s2 tr => .failure st s2 (tr6 ++ tr)
      | .term s2 tr => .stop s2 (tr6 ++ tr)
      | .fuelGone s2 tr => .fuelGone s2 (tr6 ++ tr)
      | .ok s2 tr => finishBody m s2 (tr6 ++ tr)

/-- Outcome of the whole run-to-completion loop. -/
inductive LoopOut (σ : Type) where
  | finished (s : SimulationState σ) (tr : List Call)
  | failed (st : Fmi2Status) (s : SimulationState σ) (tr : List Call)
  | fuelGone (s : SimulationState σ) (tr : List Call)
  deriving DecidableEq

/-- The run-to-completion loop `while (time < tEnd) { ... }` of `simulate`
(src/main.c lines 294-401), fuelled: the C loop's iteration count is not
bounded a priori (a time event may clamp time backwards), so each iteration
consumes one unit of fuel. -/
def simulateLoop (m : FMUModel σ) (fuelIter : Nat) :
    Nat → SimulationState σ → LoopOut σ
  | 0, s => if s.time < s.tEnd then .fuelGone s [] else .finished s []
  | fuel + 1, s =>
    if s.time < s.tEnd then
      match simulateBody m fuelIter s with
      | .next s2 tr =>
        match simulateLoop m fuelIter fuel s2 with
        | .finished s3 tr2 => .finished s3 (tr ++ tr2)
        | .failed st s3 tr2 => .failed st s3 (tr ++ tr2)
        | .fuelGone s3 tr2 => .fuelGone s3 (tr ++ tr2)
      | .stop s2 tr => .finished s2 tr
      | .failure st s2 tr => .failed st s2 tr
      | .fuelGone s2 tr => .fuelGone s2 tr
    else .finished s []

/-- What a whole run reports: the success flag of the C driver, whether the
embedding ran out of fuel, the final time, the step and event counters, the
output buffer and the trace of model calls. -/
structure SimResult where
  ok : Bool
  fuelOut : Bool
  finalTime : ℚ
  nSteps : Nat
  nTimeEvents : Nat
  nStateEvents : Nat
  nStepEvents : Nat
  output : List (List ℚ)
  trace : List Call
  deriving Repr, DecidableEq

/-- Build a run result from a session state. -/
def mkResult (ok fuelOut : Bool) (s : SimulationState σ) (tr : List Call) : SimResult :=
  ⟨ok, fuelOut, s.time, s.nSteps, s.nTimeEvents, s.nStateEvents, s.nStepEvents,
    s.output, tr⟩

/-- A failure before anything was recorded (the C driver returns without
printing any output row): zero time and counters, one empty row per output
row. -/
def earlyFail (m : FMUModel σ) (tr : List Call) : SimResult :=
  ⟨false, false, 0, 0, 0, 0, 0, List.replicate (m.varList.length + 1) [], tr⟩

/-- Fuel ran out before the loop started. -/
def earlyFuelGone (m : FMUModel σ) (tr : List Call) : SimResult :=
  ⟨false, true, 0, 0, 0, 0, 0, List.replicate (m.varList.length + 1) [], tr⟩

/-- The per-variable recorded sequences of a run: the first `nSteps` columns
of each output row — exactly the columns the C drivers print at the end of
a run. -/
def recorded (r : SimResult) : List (List ℚ) :=
  r.output.map (fun row => row.take r.nSteps)

/-- Outcome of the setup phase of `simulate` (src/main.c lines 196-289):
failure before the loop, fuel exhaustion in the initial discrete-update
iteration, model-requested termination during that iteration (run ends with
zero steps), or a session ready for the loop. -/
inductive PreOut (σ : Type) where
  | failedEarly (tr : List Call)
  | fuelGoneInit (tr : List Call)
  | termAtInit (s : SimulationState σ) (tr : List Call)
  | ready (s : SimulationState σ) (tr : List Call)
  deriving DecidableEq

/-- The fully zeroed `fmi2EventInfo` the drivers start the initial
discrete-update iteration with (`newDiscreteStatesNeeded = true`,
`terminateSimulation = false`; the externally-stepped driver's state is
calloc-zeroed, and `simulate` writes only those two fields before the first
`newDiscreteStates` call overwrites the whole record). -/
def initialEventInfo : Fmi2EventInfo :=
  { newDiscreteStatesNeeded := true, terminateSimulation := false,
    nominalsOfContinuousStatesChanged := false,
    valuesOfContinuousStatesChanged := false,
    nextEventTimeDefined := false, nextEventTime := 0 }

/-- The setup phase of `simulate` (src/main.c lines 196-289): instantiate,
allocate, setupExperiment, initialization mode enter/exit, initial
discrete-update iteration, enter continuous-time mode, record the initial
output column.  On any status stricter than Warning the C function returns
`error(...)` immediately — without releasing the instance. -/
def simulatePrelude (m : FMUModel σ) (tEnd h : ℚ) (fuelIter : Nat) : PreOut σ :=
  match m.instantiate with
  | none => .failedEarly [.instantiate]
  | some c0 =>
    let nx := m.nx
    let nz := m.nz
    let x0 : List ℚ := List.replicate nx 0
    let varList := m.varList
    let nVariables := varList.length
    let output0 := List.replicate (nVariables + 1) (List.replicate (outCap tEnd h) 0)
    let r1 := m.setupExperiment c0
    let tr1 : List Call := [.instantiate, .setupExperiment]
    if statusAbort r1.1 then .failedEarly tr1 else
    let r2 := m.enterInitializationMode r1.2
    let tr2 : List Call := tr1 ++ [.enterInitializationMode]
    if statusAbort r2.1 then .failedEarly tr2 else
    let r3 := m.exitInitializationMode r2.2
    let tr3 : List Call := tr2 ++ [.exitInitializationMode]
    if statusAbort r3.1 then .failedEarly tr3 else
    match eventIteration m fuelIter initialEventInfo r3.2 with
    | (.aborted _ _ _, itr) => .failedEarly (tr3 ++ itr)
    | (.fuelGone _ _, itr) => .fuelGoneInit (tr3 ++ itr)
    | (.done ei c, itr) =>
      let s0 : SimulationState σ :=
        { component := c, nx := nx, nz := nz, x := x0, xdot := x0,
          z := List.replicate nz 0, prez := List.replicate nz 0,
          time := 0, h := h, tEnd := tEnd, eventInfo := ei,
          varList := varList, nVariables := nVariables, output := output0,
          nSteps := 0, nTimeEvents := 0, nStateEvents := 0, nStepEvents := 0 }
      let tr4 : List Call := tr3 ++ itr
      if ei.terminateSimulation then .termAtInit s0 tr4 else
      let r4 := m.enterContinuousTimeMode s0.component
      let tr5 : List Call := tr4 ++ [.enterContinuousTimeMode ei.newDiscreteStatesNeeded]
      if statusAbort r4.1 then .failedEarly tr5 else
      let rRec := recordOutputs m varList nVariables 0 output0 r4.2
      .ready { s0 with component := rRec.2.1, output := rRec.1 } (tr5 ++ rRec.2.2)

/-- The cleanup of `simulate` (src/main.c lines 403-436): call `terminate`;
if that fails the C function returns `error(...)` — skipping
`freeInstance` — otherwise it releases the instance and reports success. -/
def simulateCleanup (m : FMUModel σ) (s : SimulationState σ) (tr : List Call) : SimResult :=
  let r := m.terminate s.component
  if statusAbort r.1 then mkResult false false s (tr ++ [.terminateCall])
  else mkResult true false s (tr ++ [.terminateCall, .freeInstance])

/-- The run-to-completion driver `simulate` (src/main.c lines 164-437). -/
def simulate (m : FMUModel σ) (tEnd h : ℚ) (fuelIter fuelOuter : Nat) : SimResult :=
  match simulatePrelude m tEnd h fuelIter with
  | .failedEarly tr => earlyFail m tr
  | .fuelGoneInit tr => earlyFuelGone m tr
  | .termAtInit s tr => simulateCleanup m s tr
  | .ready s tr =>
    match simulateLoop m fuelIter fuelOuter s with
    | .finished s2 tr2 => simulateCleanup m s2 (tr ++ tr2)
    | .failed _ s2 tr2 => mkResult false false s2 (tr ++ tr2)
    | .fuelGone s2 tr2 => mkResult false true s2 (tr ++ tr2)

/-- Outcome of `initializeSimulation`: NULL (with the trace of what ran),
fuel exhaustion in the initial discrete-update iteration, or the session
it returns. -/
inductive InitOut (σ : Type) where
  | failed (tr : List Call)
  | fuelGoneInit (tr : List Call)
  | ready (s : SimulationState σ) (tr : List Call)
  deriving DecidableEq

/-- The externally-stepped driver's setup, `initializeSimulation`
(src/main.c lines 450-571).  Unlike `simulate`, every failure after a
successful `instantiate` releases the instance before returning NULL, and
the initial output column is recorded even when the model requested
termination during the initial discrete-update iteration. -/
def initializeSimulation (m : FMUModel σ) (tEnd h : ℚ) (fuelIter : Nat) : InitOut σ :=
  match m.instantiate with
  | none => .failed [.instantiate]
  | some c0 =>
    let nx := m.nx
    let nz := m.nz
    let x0 : List ℚ := List.replicate nx 0
    let r1 := m.setupExperiment c0
    let tr1 : List Call := [.instantiate, .setupExperiment]
    if statusAbort r1.1 then .failed (tr1 ++ [.freeInstance]) else
    let r2 := m.enterInitializationMode r1.2
    let tr2 : List Call := tr1 ++ [.enterInitializationMode]
    if statusAbort r2.1 then .failed (tr2 ++ [.freeInstance]) else
    let r3 := m.exitInitializationMode r2.2
    let tr3 : List Call := tr2 ++ [.exitInitializationMode]
    if statusAbort r3.1 then .failed (tr3 ++ [.freeInstance]) else
    match eventIteration m fuelIter initialEventInfo r3.2 with
    | (.aborted _ _ _, itr) => .failed (tr3 ++ itr ++ [.freeInstance])
    | (.fuelGone _ _, itr) => .fuelGoneInit (tr3 ++ itr)
    | (.done ei c, itr) =>
      let tr4 : List Call := tr3 ++ itr
      let varList := m.varList
      let nVariables := varList.length
      let output0 := List.replicate (nVariables + 1) (List.replicate (outCap tEnd h) 0)
      let mkS := fun (comp : σ) (out : List (List ℚ)) =>
        ({ component := comp, nx := nx, nz := nz, x := x0, xdot := x0,
           z := List.replicate nz 0, prez := List.replicate nz 0,
           time := 0, h := h, tEnd := tEnd, eventInfo := ei,
           varList := varList, nVariables := nVariables, output := out,
           nSteps := 0, nTimeEvents := 0, nStateEvents := 0,
           nStepEvents := 0 } : SimulationState σ)
      if ei.terminateSimulation then
        let rRec := recordOutputs m varList nVariables 0 output0 c
        .ready (mkS rRec.2.1 rRec.1) (tr4 ++ rRec.2.2)
      else
        let r4 := m.enterContinuousTimeMode c
        let tr5 : List Call := tr4 ++ [.enterContinuousTimeMode ei.newDiscreteStatesNeeded]
        if statusAbort r4.1 then .failed (tr5 ++ [.freeInstance]) else
        let rRec := recordOutputs m varList nVariables 0 output0 r4.2
        .ready (mkS rRec.2.1 rRec.1) (tr5 ++ rRec.2.2)

/-- Outcome of the caller-driven stepping loop of `main` (src/main.c lines
805-811). -/
inductive RunOut (σ : Type) where
  | done (s : SimulationState σ) (tr : List Call)
  | fuelGone (s : SimulationState σ) (tr : List Call)
  deriving DecidableEq

/-- The caller-driven loop of `main`'s Step mode (src/main.c lines 805-811):
`while (time < tEnd && !terminateSimulation) { status = simulationDoStep(...);
if (status > fmi2Warning) break; }`. -/
def stepLoop (m : FMUModel σ) (fuelIter : Nat) :
    Nat → SimulationState σ → RunOut σ
  | 0, s =>
    if s.time < s.tEnd ∧ s.eventInfo.terminateSimulation = false then .fuelGone s []
    else .done s []
  | fuel + 1, s =>
    if s.time < s.tEnd ∧ s.eventInfo.terminateSimulation = false then
      match simulationDoStep m fuelIter s with
      | .ret st s2 tr =>
        if statusAbort st then .done s2 tr
        else
          match stepLoop m fuelIter fuel s2 with
          | .done s3 tr2 => .done s3 (tr ++ tr2)
          | .fuelGone s3 tr2 => .fuelGone s3 (tr ++ tr2)
      | .fuelGone s2 tr => .fuelGone s2 tr
    else .done s []

/-- `cleanupSimulation` (src/main.c lines 707-749): terminate (status
ignored), release the instance, print the summary and the recorded rows. -/
def cleanupSimulation (m : FMUModel σ) (s : SimulationState σ) (tr : List Call) : SimResult :=
  let r := m.terminate s.component
  let _ := r
  mkResult true false s (tr ++ [.terminateCall, .freeInstance])

/-- The externally-stepped driver: `main`'s Step branch (src/main.c lines
793-814) — `initializeSimulation`, the caller-driven `simulationDoStep`
loop, then `cleanupSimulation`. -/
def runStepMode (m : FMUModel σ) (tEnd h : ℚ) (fuelIter fuelOuter : Nat) : SimResult :=
  match initializeSimulation m tEnd h fuelIter with
  | .failed tr => earlyFail m tr
  | .fuelGoneInit tr => earlyFuelGone m tr
  | .ready s tr =>
    match stepLoop m fuelIter fuelOuter s with
    | .done s2 tr2 => cleanupSimulation m s2 (tr ++ tr2)
    | .fuelGone s2 tr2 => mkResult false true s2 (tr ++ tr2)

/-- The session state a `StepOut` carries. -/
def stepState : StepOut σ → SimulationState σ
  | .ret _ s _ => s
  | .fuelGone s _ => s

/-- The trace a `StepOut` carries. -/
def stepTrace : StepOut σ → List Call
  | .ret _ _ tr => tr
  | .fuelGone _ tr => tr

/-- The trace a `BodyOut` carries. -/
def bodyTrace : BodyOut σ → List Call
  | .next _ tr => tr
  | .stop _ tr => tr
  | .failure _ _ tr => tr
  | .fuelGone _ tr => tr

/-- The observable part of a session state: what the drivers print at the
end of a run (final time, step and event counters, the output buffer). -/
structure Obs where
  time : ℚ
  nSteps : Nat
  nTimeEvents : Nat
  nStateEvents : Nat
  nStepEvents : Nat
  output : List (List ℚ)
  deriving Repr, DecidableEq

/-- Observables of a session state. -/
def obsOf (s : SimulationState σ) : Obs :=
  ⟨s.time, s.nSteps, s.nTimeEvents, s.nStateEvents, s.nStepEvents, s.output⟩

/-- Observables of a run-to-completion loop outcome, with a flag marking
fuel exhaustion. -/
def loopObs : LoopOut σ → Bool × Obs
  | .finished s _ => (false, obsOf s)
  | .failed _ s _ => (false, obsOf s)
  | .fuelGone s _ => (true, obsOf s)

/-- Observables of a caller-driven loop outcome. -/
def runObs : RunOut σ → Bool × Obs
  | .done s _ => (false, obsOf s)
  | .fuelGone s _ => (true, obsOf s)

/-- `convergesWithin m n ei c`: starting the discrete-update iteration at
event info `ei` and model state `c`, the loop condition
`newDiscreteStatesNeeded && !terminateSimulation` fails within `n` calls to
`newDiscreteStates`, none of which returns a status stricter than
Warning — i.e. the model reports `newDiscreteStatesNeeded = false` (or
requests termination) on some iteration. -/
def convergesWithin (m : FMUModel σ) : Nat → Fmi2EventInfo → σ → Bool
  | 0, ei, _ => !(ei.newDiscreteStatesNeeded && !ei.terminateSimulation)
  | n + 1, ei, c =>
    (!(ei.newDiscreteStatesNeeded && !ei.terminateSimulation)) ||
      ((!statusAbort (m.newDiscreteStates c).1) &&
        convergesWithin m n (m.newDiscreteStates c).2.1 (m.newDiscreteStates c).2.2)

/-- Modelled from the spec: the exact solution of the constant-derivative
initial-value problem `x(t0) = x0`, `xdot = d`, namely
`x(t) = x0 + (t - t0) * d` ("Forward Euler update is exact for any model
whose derivative is constant over a step"). -/
def constFlow (x0 d t0 t : ℚ) : ℚ := x0 + (t - t0) * d

/-- An `fmi2EventInfo` reporting a converged discrete update and no pending
time event, used by the concrete test models below. -/
def quietEventInfo : Fmi2EventInfo :=
  { newDiscreteStatesNeeded := false, terminateSimulation := false,
    nominalsOfContinuousStatesChanged := false,
    valuesOfContinuousStatesChanged := false,
    nextEventTimeDefined := false, nextEventTime := 0 }

/-- A concrete well-behaved test model over model state `ℚ` (the single
continuous state): one continuous state starting at 1 with constant
derivative -1, no event indicators, no events, every call returning OK,
and two declared REAL variables whose values are read off the state. -/
def baseModel : FMUModel ℚ :=
  { nx := 1, nz := 0,
    varList := [⟨"x", 0, .real⟩, ⟨"der", 1, .real⟩],
    instantiate := some 1,
    setupExperiment := fun c => (.ok, c),
    enterInitializationMode := fun c => (.ok, c),
    exitInitializationMode := fun c => (.ok, c),
    newDiscreteStates := fun c => (.ok, quietEventInfo, c),
    enterContinuousTimeMode := fun c => (.ok, c),
    enterEventMode := fun c => (.ok, c),
    getContinuousStates := fun c => (.ok, [c], c),
    getDerivatives := fun c => (.ok, [-1], c),
    setTime := fun _ c => (.ok, c),
    setContinuousStates := fun l _ => (.ok, l.getD 0 0),
    getEventIndicators := fun c => (.ok, [], c),
    completedIntegratorStep := fun c => (.ok, false, false, c),
    getReal := fun _ c => (c, c),
    getInteger := fun _ c => (0, c),
    terminate := fun c => (.ok, c) }

/-- `baseModel` with `setupExperiment` failing with `fmi2Error` — the C6
scenario "a model call returning Error during setupExperiment". -/
def setupFailModel : FMUModel ℚ :=
  { baseModel with setupExperiment := fun c => (.error, c) }

/-- `baseModel` with distinguishable values for the two declared variables:
`getReal` answers 5 for value reference 0 and 7 for every other value
reference (in particular for the second, last declared variable). -/
def twoValueModel : FMUModel ℚ :=
  { baseModel with getReal := fun vr c => (if vr = 0 then 5 else 7, c) }

/-- A session state for unit tests of `simulationDoStep` on an
already-finished session (C10): time has reached `tEnd`. -/
def finishedState : SimulationState ℚ :=
  { component := 1, nx := 1, nz := 0, x := [0], xdot := [0], z := [], prez := [],
    time := 1, h := 1/4, tEnd := 1, eventInfo := quietEventInfo,
    varList := baseModel.varList, nVariables := 2,
    output := List.replicate 3 (List.replicate 14 0),
    nSteps := 4, nTimeEvents := 0, nStateEvents := 0, nStepEvents := 0 }

/-- A mid-run session state with a pending time event at `t = 3/8`
(`nextEventTimeDefined` set), used to witness the time-event claims. -/
def pendingEventState : SimulationState ℚ :=
  { component := 1, nx := 1, nz := 0, x := [1], xdot := [0], z := [], prez := [],
    time := 1/4, h := 1/4, tEnd := 1,
    eventInfo := { quietEventInfo with nextEventTimeDefined := true, nextEventTime := 3/8 },
    varList := baseModel.varList, nVariables := 2,
    output := List.replicate 3 (List.replicate 14 0),
    nSteps := 1, nTimeEvents := 0, nStateEvents := 0, nStepEvents := 0 }

/-- `baseModel` with `completedIntegratorStep` reporting
`terminateSimulation = true`, used to witness the termination-priority
claim (C7). -/
def stepTerminateModel : FMUModel ℚ :=
  { baseModel with completedIntegratorStep := fun c => (.ok, true, true, c) }

/-- The session state an `EventOut` carries. -/
def evState : EventOut σ → SimulationState σ
  | .abort _ s _ => s
  | .term s _ => s
  | .ok s _ => s
  | .fuelGone s _ => s

/-- The trace an `EventOut` carries. -/
def evTrace : EventOut σ → List Call
  | .abort _ _ tr => tr
  | .term _ tr => tr
  | .ok _ tr => tr
  | .fuelGone _ tr => tr


/-- The trace a `Phase` carries. -/
def phTrace : Phase σ → List Call
  | .abort _ _ tr => tr
  | .ok _ tr => tr

/-- The trace a `CoreOut` carries. -/
def coreTrace : CoreOut σ → List Call
  | .abort _ _ tr => tr
  | .stepped _ _ _ _ _ tr => tr

/-! ### Supporting lemmas -/

theorem foldl_or_init {α : Type} (g : α → Bool) (l : List α) (b : Bool) :
    l.foldl (fun acc p => acc || g p) b
      = (b || l.foldl (fun acc p => acc || g p) false) := by
  induction l generalizing b with
  | nil => simp
  | cons hd tl ih =>
    simp only [List.foldl_cons]
    rw [ih (b || g hd), ih (false || g hd)]
    simp [Bool.or_assoc]

theorem stateEventCheck_cons (p q : ℚ) (ps qs : List ℚ) :
    stateEventCheck (p :: ps) (q :: qs)
      = (decide (p * q < 0) || stateEventCheck ps qs) := by
  simp only [stateEventCheck, List.zip_cons_cons, List.foldl_cons]
  rw [foldl_or_init]
  simp

theorem stateEventCheck_iff (prez z : List ℚ) :
    stateEventCheck prez z = true ↔
      ∃ i, i < prez.length ∧ i < z.length ∧ prez.getD i 0 * z.getD i 0 < 0 := by
  induction prez generalizing z with
  | nil => simp [stateEventCheck]
  | cons p ps ih =>
    cases z with
    | nil => simp [stateEventCheck]
    | cons q qs =>
      rw [stateEventCheck_cons]
      simp only [Bool.or_eq_true, decide_eq_true_eq, ih]
      constructor
      · rintro (hpq | ⟨i, hi1, hi2, hi3⟩)
        · exact ⟨0, by simp, by simp, by simpa using hpq⟩
        · exact ⟨i + 1, by simpa using hi1, by simpa using hi2, by simpa using hi3⟩
      · rintro ⟨i, hi1, hi2, hi3⟩
        cases i with
        | zero => exact Or.inl (by simpa using hi3)
        | succ j =>
          exact Or.inr ⟨j, by simpa using hi1, by simpa using hi2, by simpa using hi3⟩

theorem eulerUpdate_getD (x xdot : List ℚ) (dt : ℚ) (i : Nat)
    (h1 : i < x.length) (h2 : i < xdot.length) :
    (eulerUpdate x xdot dt).getD i 0 = x.getD i 0 + dt * xdot.getD i 0 := by
  induction x generalizing xdot i with
  | nil => simp at h1
  | cons a as ih =>
    cases xdot with
    | nil => simp at h2
    | cons b bs =>
      cases i with
      | zero => simp [eulerUpdate]
      | succ j =>
        simp only [eulerUpdate, List.zip_cons_cons, List.map_cons, List.getD_cons_succ]
        exact ih bs j (by simpa using h1) (by simpa using h2)

theorem loopCond_false (ei : Fmi2EventInfo)
    (hcond : ¬((ei.newDiscreteStatesNeeded && !ei.terminateSimulation) = true)) :
    ei.newDiscreteStatesNeeded = false ∨ ei.terminateSimulation = true := by
  cases hn : ei.newDiscreteStatesNeeded
  · exact Or.inl rfl
  · cases ht : ei.terminateSimulation
    · exact absurd (by simp [hn, ht]) hcond
    · exact Or.inr rfl

theorem eventIteration_trace_nil (m : FMUModel σ) (fuel : Nat) (ei : Fmi2EventInfo)
    (c : σ) (hc : (ei.newDiscreteStatesNeeded && !ei.terminateSimulation) = false) :
    (eventIteration m fuel ei c).2 = [] := by
  cases fuel <;> simp [eventIteration, hc]

theorem eventIteration_done_flags (m : FMUModel σ) :
    ∀ (fuel : Nat) (ei : Fmi2EventInfo) (c : σ) (ei2 : Fmi2EventInfo) (c2 : σ),
    (eventIteration m fuel ei c).1 = .done ei2 c2 →
    ei2.newDiscreteStatesNeeded = false ∨ ei2.terminateSimulation = true := by
  intro fuel
  induction fuel with
  | zero =>
    intro ei c ei2 c2 hit
    by_cases hcond : (ei.newDiscreteStatesNeeded && !ei.terminateSimulation) = true
    · simp [eventIteration, hcond] at hit
    · simp only [eventIteration, hcond, if_false, Bool.false_eq_true] at hit
      obtain ⟨he, -⟩ := IterOut.done.inj hit
      subst he
      exact loopCond_false ei hcond
  | succ n ih =>
    intro ei c ei2 c2 hit
    by_cases hcond : (ei.newDiscreteStatesNeeded && !ei.terminateSimulation) = true
    · simp only [eventIteration, hcond, if_true] at hit
      by_cases hab : statusAbort (m.newDiscreteStates c).1 = true
      · simp [hab] at hit
      · simp only [Bool.not_eq_true] at hab
        simp only [hab, Bool.false_eq_true, if_false] at hit
        exact ih _ _ _ _ hit
    · simp only [eventIteration, hcond, if_false, Bool.false_eq_true] at hit
      obtain ⟨he, -⟩ := IterOut.done.inj hit
      subst he
      exact loopCond_false ei hcond

theorem eventIteration_trace_entries (m : FMUModel σ) :
    ∀ (fuel : Nat) (ei : Fmi2EventInfo) (c : σ) (e : Call),
    e ∈ (eventIteration m fuel ei c).2 → ∃ nb tb, e = .newDiscreteStates nb tb := by
  intro fuel
  induction fuel with
  | zero =>
    intro ei c e he
    by_cases hcond : (ei.newDiscreteStatesNeeded && !ei.terminateSimulation) = true <;>
      simp [eventIteration, hcond] at he
  | succ n ih =>
    intro ei c e he
    by_cases hcond : (ei.newDiscreteStatesNeeded && !ei.terminateSimulation) = true
    · simp only [eventIteration, hcond, if_true] at he
      by_cases hab : statusAbort (m.newDiscreteStates c).1 = true
      · simp [hab] at he
        exact ⟨_, _, he⟩
      · simp only [Bool.not_eq_true] at hab
        simp only [hab, Bool.false_eq_true, if_false, List.mem_cons] at he
        rcases he with he | he
        · exact ⟨_, _, he⟩
        · exact ih _ _ _ he
    · simp [eventIteration, hcond] at he

theorem eventIteration_dropLast (m : FMUModel σ) :
    ∀ (fuel : Nat) (ei : Fmi2EventInfo) (c : σ),
    ((eventIteration m fuel ei c).2.dropLast.all
      (fun e => match e with
        | .newDiscreteStates nb tb => nb && !tb
        | _ => true)) = true := by
  intro fuel
  induction fuel with
  | zero =>
    intro ei c
    by_cases hcond : (ei.newDiscreteStatesNeeded && !ei.terminateSimulation) = true <;>
      simp [eventIteration, hcond]
  | succ n ih =>
    intro ei c
    by_cases hcond : (ei.newDiscreteStatesNeeded && !ei.terminateSimulation) = true
    · simp only [eventIteration, hcond, if_true]
      by_cases hab : statusAbort (m.newDiscreteStates c).1 = true
      · simp [hab]
      · simp only [Bool.not_eq_true] at hab
        simp only [hab, Bool.false_eq_true, if_false]
        have hih := ih (m.newDiscreteStates c).2.1 (m.newDiscreteStates c).2.2
        rcases htr : (eventIteration m n (m.newDiscreteStates c).2.1
            (m.newDiscreteStates c).2.2).2 with _ | ⟨e, es⟩
        · simp [htr]
        · rw [htr] at hih
          by_cases hnext : ((m.newDiscreteStates c).2.1.newDiscreteStatesNeeded &&
              !(m.newDiscreteStates c).2.1.terminateSimulation) = true
          · simp only [htr, List.dropLast_cons₂, List.all_cons, Bool.and_eq_true]
            exact ⟨by simpa using hnext, hih⟩
          · have hnil := eventIteration_trace_nil m n (m.newDiscreteStates c).2.1
              (m.newDiscreteStates c).2.2 (by simpa using hnext)
            rw [hnil] at htr
            cases htr
    · simp [eventIteration, hcond]

theorem eventIteration_converges (m : FMUModel σ) :
    ∀ (fuel : Nat) (ei : Fmi2EventInfo) (c : σ),
    convergesWithin m fuel ei c = true →
    ∃ ei2 c2, (eventIteration m fuel ei c).1 = .done ei2 c2 := by
  intro fuel
  induction fuel with
  | zero =>
    intro ei c hconv
    simp only [convergesWithin, Bool.not_eq_true'] at hconv
    simp [eventIteration, hconv]
  | succ n ih =>
    intro ei c hconv
    by_cases hcond : (ei.newDiscreteStatesNeeded && !ei.terminateSimulation) = true
    · simp only [convergesWithin, hcond, Bool.not_true, Bool.false_or,
        Bool.and_eq_true, Bool.not_eq_true'] at hconv
      obtain ⟨hab, hrest⟩ := hconv
      simp only [eventIteration, hcond, if_true, hab, Bool.false_eq_true, if_false]
      exact ih _ _ hrest
    · simp [eventIteration, hcond]

/-! ### Step-phase characterization lemmas -/

theorem fetchStates_ok (m : FMUModel σ) (s s2 : SimulationState σ) (tr : List Call)
    (h : fetchStates m s = .ok s2 tr) :
    s2 = { s with
        component := (m.getDerivatives (m.getContinuousStates s.component).2.2).2.2,
        x := (m.getContinuousStates s.component).2.1,
        xdot := (m.getDerivatives (m.getContinuousStates s.component).2.2).2.1 }
    ∧ tr = [.getContinuousStates (m.getContinuousStates s.component).2.1,
        .getDerivatives (m.getDerivatives (m.getContinuousStates s.component).2.2).2.1] := by
  unfold fetchStates at h
  dsimp only at h
  repeat' split at h
  · exact absurd h (by simp)
  · exact absurd h (by simp)
  · obtain ⟨h1, h2⟩ := Phase.ok.inj h
    subst h1 h2
    exact ⟨rfl, rfl⟩

theorem advanceAndStep_ok (m : FMUModel σ) (s s6 : SimulationState σ) (te : Bool)
    (tr : List Call) (h : advanceAndStep m s = (te, .ok s6 tr)) :
    te = (advanceTime s.time s.h s.tEnd s.eventInfo).1
    ∧ s6 = { s with
        component := (m.setContinuousStates
          (eulerUpdate s.x s.xdot ((advanceTime s.time s.h s.tEnd s.eventInfo).2 - s.time))
          (m.setTime (advanceTime s.time s.h s.tEnd s.eventInfo).2 s.component).2).2,
        x := eulerUpdate s.x s.xdot ((advanceTime s.time s.h s.tEnd s.eventInfo).2 - s.time),
        time := (advanceTime s.time s.h s.tEnd s.eventInfo).2 }
    ∧ tr = [.setTime (advanceTime s.time s.h s.tEnd s.eventInfo).2,
        .setContinuousStates
          (eulerUpdate s.x s.xdot ((advanceTime s.time s.h s.tEnd s.eventInfo).2 - s.time))] := by
  unfold advanceAndStep at h
  dsimp only at h
  repeat' split at h
  · exact absurd h (by simp)
  · exact absurd h (by simp)
  · obtain ⟨h1, h2⟩ := Prod.mk.inj h
    obtain ⟨h3, h4⟩ := Phase.ok.inj h2
    subst h1 h3 h4
    exact ⟨rfl, rfl, rfl⟩

theorem checkEvents_ok (m : FMUModel σ) (s s9 : SimulationState σ)
    (se ste term : Bool) (tr : List Call)
    (h : checkEvents m s = (se, ste, term, .ok s9 tr)) :
    se = stateEventCheck s.z (m.getEventIndicators s.component).2.1
    ∧ ste = (m.completedIntegratorStep (m.getEventIndicators s.component).2.2).2.1
    ∧ term = (m.completedIntegratorStep (m.getEventIndicators s.component).2.2).2.2.1
    ∧ s9 = { s with
        component := (m.completedIntegratorStep
          (m.getEventIndicators s.component).2.2).2.2.2,
        z := (m.getEventIndicators s.component).2.1,
        prez := s.z }
    ∧ tr = [.getEventIndicators (m.getEventIndicators s.component).2.1,
        .completedIntegratorStep ste term] := by
  unfold checkEvents at h
  dsimp only at h
  repeat' split at h
  · exact absurd h (by simp)
  · exact absurd h (by simp)
  · obtain ⟨h1, h2⟩ := Prod.mk.inj h
    obtain ⟨h3, h4⟩ := Prod.mk.inj h2
    obtain ⟨h5, h6⟩ := Prod.mk.inj h4
    obtain ⟨h7, h8⟩ := Phase.ok.inj h6
    subst h1 h3 h5 h7 h8
    exact ⟨rfl, rfl, rfl, rfl, rfl⟩

theorem eventIteration_aborted_status (m : FMUModel σ) :
    ∀ (fuel : Nat) (ei : Fmi2EventInfo) (c : σ) (st : Fmi2Status)
      (ei2 : Fmi2EventInfo) (c2 : σ),
    (eventIteration m fuel ei c).1 = .aborted st ei2 c2 → statusAbort st = true := by
  intro fuel
  induction fuel with
  | zero =>
    intro ei c st ei2 c2 hit
    by_cases hcond : (ei.newDiscreteStatesNeeded && !ei.terminateSimulation) = true <;>
      simp [eventIteration, hcond] at hit
  | succ n ih =>
    intro ei c st ei2 c2 hit
    by_cases hcond : (ei.newDiscreteStatesNeeded && !ei.terminateSimulation) = true
    · simp only [eventIteration, hcond, if_true] at hit
      by_cases hab : statusAbort (m.newDiscreteStates c).1 = true
      · simp only [hab, if_true] at hit
        obtain ⟨hst, -⟩ := IterOut.aborted.inj hit
        subst hst
        exact hab
      · simp only [Bool.not_eq_true] at hab
        simp only [hab, Bool.false_eq_true, if_false] at hit
        exact ih _ _ _ _ _ hit
    · simp [eventIteration, hcond] at hit

theorem doStepCore_stepped (m : FMUModel σ) (s s9 : SimulationState σ)
    (te se ste term : Bool) (tr : List Call)
    (hcore : doStepCore m s = .stepped s9 te se ste term tr) :
    let rA := m.getContinuousStates s.component
    let rB := m.getDerivatives rA.2.2
    let a := advanceTime s.time s.h s.tEnd s.eventInfo
    let xE := eulerUpdate rA.2.1 rB.2.1 (a.2 - s.time)
    let rD := m.setContinuousStates xE (m.setTime a.2 rB.2.2).2
    let rE := m.getEventIndicators rD.2
    let rF := m.completedIntegratorStep rE.2.2
    te = a.1
    ∧ se = stateEventCheck s.z rE.2.1
    ∧ s9 = { s with
          component := rF.2.2.2,
          x := xE,
          xdot := rB.2.1,
          z := rE.2.1,
          prez := s.z,
          time := a.2 }
    ∧ tr = [.getContinuousStates rA.2.1, .getDerivatives rB.2.1, .setTime a.2,
        .setContinuousStates xE, .getEventIndicators rE.2.1,
        .completedIntegratorStep ste term] := by
  intro rA rB a xE rD rE rF
  unfold doStepCore at hcore
  rcases hf : fetchStates m s with ⟨stF, sF, trF⟩ | ⟨s2, tr2⟩
  · rw [hf] at hcore; simp at hcore
  · rw [hf] at hcore
    dsimp only at hcore
    obtain ⟨hs2, htr2⟩ := fetchStates_ok m s s2 tr2 hf
    rcases ha : advanceAndStep m s2 with ⟨teA, phA⟩
    rcases phA with ⟨stA, sA, trA⟩ | ⟨s6, tr4⟩
    · rw [ha] at hcore; simp at hcore
    · rw [ha] at hcore
      dsimp only at hcore
      obtain ⟨hteA, hs6, htr4⟩ := advanceAndStep_ok m s2 s6 teA tr4 ha
      rcases hc : checkEvents m s6 with ⟨seC, steC, termC, phC⟩
      rcases phC with ⟨stC, sC, trC⟩ | ⟨s9C, tr6⟩
      · rw [hc] at hcore; simp at hcore
      · rw [hc] at hcore
        dsimp only at hcore
        obtain ⟨hseC, hsteC, htermC, hs9C, htr6⟩ :=
          checkEvents_ok m s6 s9C seC steC termC tr6 hc
        obtain ⟨h9, hte, hse, hste, hterm, htr⟩ := CoreOut.stepped.inj hcore
        subst hs2 hs6 htr2 htr4
        subst h9 hte hse hste hterm
        refine ⟨hteA, hseC, hs9C, ?_⟩
        rw [← htr, htr6, hsteC, htermC]
        rfl

theorem doStepCore_abort_status (m : FMUModel σ) (s s2 : SimulationState σ)
    (st : Fmi2Status) (tr : List Call)
    (hcore : doStepCore m s = .abort st s2 tr) : statusAbort st = true := by
  have habF : ∀ (sx s' : SimulationState σ) stx trx, fetchStates m sx = .abort stx s' trx →
      statusAbort stx = true := by
    intro sx s' stx trx h
    unfold fetchStates at h
    dsimp only at h
    repeat' split at h
    · obtain ⟨h1, -⟩ := Phase.abort.inj h
      subst h1; assumption
    · obtain ⟨h1, -⟩ := Phase.abort.inj h
      subst h1; assumption
    · exact absurd h (by simp)
  have habA : ∀ (sx s' : SimulationState σ) tex stx trx,
      advanceAndStep m sx = (tex, .abort stx s' trx) → statusAbort stx = true := by
    intro sx s' tex stx trx h
    unfold advanceAndStep at h
    dsimp only at h
    repeat' split at h
    · obtain ⟨-, h2⟩ := Prod.mk.inj h
      obtain ⟨h1, -⟩ := Phase.abort.inj h2
      subst h1; assumption
    · obtain ⟨-, h2⟩ := Prod.mk.inj h
      obtain ⟨h1, -⟩ := Phase.abort.inj h2
      subst h1; assumption
    · exact absurd h (by simp)
  have habC : ∀ (sx s' : SimulationState σ) sex stex termx stx trx,
      checkEvents m sx = (sex, stex, termx, .abort stx s' trx) → statusAbort stx = true := by
    intro sx s' sex stex termx stx trx h
    unfold checkEvents at h
    dsimp only at h
    repeat' split at h
    · obtain ⟨-, h2⟩ := Prod.mk.inj h
      obtain ⟨-, h3⟩ := Prod.mk.inj h2
      obtain ⟨-, h4⟩ := Prod.mk.inj h3
      obtain ⟨h1, -⟩ := Phase.abort.inj h4
      subst h1; assumption
    · obtain ⟨-, h2⟩ := Prod.mk.inj h
      obtain ⟨-, h3⟩ := Prod.mk.inj h2
      obtain ⟨-, h4⟩ := Prod.mk.inj h3
      obtain ⟨h1, -⟩ := Phase.abort.inj h4
      subst h1; assumption
    · exact absurd h (by simp)
  unfold doStepCore at hcore
  rcases hf : fetchStates m s with ⟨stF, sF, trF⟩ | ⟨sX, trX⟩
  · rw [hf] at hcore
    dsimp only at hcore
    obtain ⟨h1, -⟩ := CoreOut.abort.inj hcore
    subst h1
    exact habF s sF stF trF hf
  · rw [hf] at hcore
    dsimp only at hcore
    rcases ha : advanceAndStep m sX with ⟨teA, phA⟩
    rcases phA with ⟨stA, sA, trA⟩ | ⟨s6, tr4⟩
    · rw [ha] at hcore
      dsimp only at hcore
      obtain ⟨h1, -⟩ := CoreOut.abort.inj hcore
      subst h1
      exact habA sX sA teA stA trA ha
    · rw [ha] at hcore
      dsimp only at hcore
      rcases hc : checkEvents m s6 with ⟨seC, steC, termC, phC⟩
      rcases phC with ⟨stC, sC, trC⟩ | ⟨s9C, tr6⟩
      · rw [hc] at hcore
        dsimp only at hcore
        obtain ⟨h1, -⟩ := CoreOut.abort.inj hcore
        subst h1
        exact habC s6 sC seC steC termC stC trC hc
      · rw [hc] at hcore
        simp at hcore

theorem eventIteration_aborted_status_pair (m : FMUModel σ) (fuel : Nat)
    (ei : Fmi2EventInfo) (c : σ) (st : Fmi2Status) (ei2 : Fmi2EventInfo) (c2 : σ)
    (tr : List Call) (hit : eventIteration m fuel ei c = (.aborted st ei2 c2, tr)) :
    statusAbort st = true :=
  eventIteration_aborted_status m fuel ei c st ei2 c2 (by rw [hit])

theorem eventIteration_done_flags_pair (m : FMUModel σ) (fuel : Nat)
    (ei : Fmi2EventInfo) (c : σ) (ei2 : Fmi2EventInfo) (c2 : σ)
    (tr : List Call) (hit : eventIteration m fuel ei c = (.done ei2 c2, tr)) :
    ei2.newDiscreteStatesNeeded = false ∨ ei2.terminateSimulation = true :=
  eventIteration_done_flags m fuel ei c ei2 c2 (by rw [hit])

theorem eventIteration_trace_entries_pair (m : FMUModel σ) (fuel : Nat)
    (ei : Fmi2EventInfo) (c : σ) (out : IterOut σ) (tr : List Call)
    (hit : eventIteration m fuel ei c = (out, tr)) (e : Call) (he : e ∈ tr) :
    ∃ nb tb, e = .newDiscreteStates nb tb :=
  eventIteration_trace_entries m fuel ei c e (by rw [hit]; exact he)

theorem handleEvents_term_flag (m : FMUModel σ) (fi : Nat) (te se ste : Bool)
    (s s2 : SimulationState σ) (tr : List Call)
    (h : handleEvents m fi te se ste s = .term s2 tr) :
    s2.eventInfo.terminateSimulation = true := by
  unfold handleEvents at h
  dsimp only at h
  repeat' split at h
  all_goals first
    | (simp at h; done)
    | (obtain ⟨h1, -⟩ := EventOut.term.inj h
       subst h1
       dsimp only
       assumption)

theorem handleEvents_abort_status (m : FMUModel σ) (fi : Nat) (te se ste : Bool)
    (s s2 : SimulationState σ) (st : Fmi2Status) (tr : List Call)
    (h : handleEvents m fi te se ste s = .abort st s2 tr) :
    statusAbort st = true := by
  unfold handleEvents at h
  dsimp only at h
  repeat' split at h
  all_goals first
    | (simp at h; done)
    | (obtain ⟨h1, -⟩ := EventOut.abort.inj h
       subst h1
       assumption)
    | (obtain ⟨h1, -⟩ := EventOut.abort.inj h
       subst h1
       exact eventIteration_aborted_status_pair m fi _ _ _ _ _ _ (by assumption))

theorem handleEvents_ok_ei (m : FMUModel σ) (fi : Nat) (te se ste : Bool)
    (s s2 : SimulationState σ) (tr : List Call)
    (h : handleEvents m fi te se ste s = .ok s2 tr) :
    s2.eventInfo.terminateSimulation = false ∨ s2.eventInfo = s.eventInfo := by
  unfold handleEvents at h
  dsimp only at h
  repeat' split at h
  all_goals first
    | (simp at h; done)
    | (obtain ⟨h1, -⟩ := EventOut.ok.inj h
       subst h1
       exact Or.inr rfl)
    | (obtain ⟨h1, -⟩ := EventOut.ok.inj h
       subst h1
       dsimp only
       simp_all)

theorem handleEvents_frame (m : FMUModel σ) (fi : Nat) (te se ste : Bool)
    (s : SimulationState σ) :
    (evState (handleEvents m fi te se ste s)).time = s.time
    ∧ (evState (handleEvents m fi te se ste s)).nSteps = s.nSteps
    ∧ (evState (handleEvents m fi te se ste s)).output = s.output
    ∧ (evState (handleEvents m fi te se ste s)).varList = s.varList
    ∧ (evState (handleEvents m fi te se ste s)).nVariables = s.nVariables := by
  unfold handleEvents
  dsimp only
  repeat' split
  all_goals exact ⟨rfl, rfl, rfl, rfl, rfl⟩

theorem handleEvents_ctm (m : FMUModel σ) (fi : Nat) (te se ste : Bool)
    (s : SimulationState σ) :
    ∀ b, Call.enterContinuousTimeMode b ∈ evTrace (handleEvents m fi te se ste s) →
    b = false := by
  unfold handleEvents
  dsimp only
  repeat' split
  all_goals intro b hb
  all_goals dsimp only [evTrace] at hb
  all_goals simp only [List.append_assoc, List.mem_append, List.mem_cons,
    List.mem_singleton, List.not_mem_nil, or_false, false_or] at hb
  all_goals first
    | exact hb.elim
    | (simp at hb; done)
    | (rcases hb with hb | hb | hb
       · simp at hb
       · obtain ⟨nb, tb, hx⟩ := eventIteration_trace_entries_pair m fi _ _ _ _
           (by assumption) _ hb
         cases hx
       · obtain hbb := Call.enterContinuousTimeMode.inj hb
         subst hbb
         rcases eventIteration_done_flags_pair m fi _ _ _ _ _ (by assumption)
           with hN | hT
         · exact hN
         · exact absurd hT (by assumption))
    | (rcases hb with hb | hb
       · simp at hb
       · obtain ⟨nb, tb, hx⟩ := eventIteration_trace_entries_pair m fi _ _ _ _
           (by assumption) _ hb
         cases hx)

theorem fetchStates_noCTM (m : FMUModel σ) (s : SimulationState σ) (b : Bool) :
    Call.enterContinuousTimeMode b ∉ phTrace (fetchStates m s) := by
  unfold fetchStates
  dsimp only
  repeat' split
  all_goals simp [phTrace]

theorem advanceAndStep_noCTM (m : FMUModel σ) (s : SimulationState σ) (b : Bool) :
    Call.enterContinuousTimeMode b ∉ phTrace (advanceAndStep m s).2 := by
  unfold advanceAndStep
  dsimp only
  repeat' split
  all_goals simp [phTrace]

theorem checkEvents_noCTM (m : FMUModel σ) (s : SimulationState σ) (b : Bool) :
    Call.enterContinuousTimeMode b ∉ phTrace (checkEvents m s).2.2.2 := by
  unfold checkEvents
  dsimp only
  repeat' split
  all_goals simp [phTrace]

theorem doStepCore_noCTM (m : FMUModel σ) (s : SimulationState σ) (b : Bool) :
    Call.enterContinuousTimeMode b ∉ coreTrace (doStepCore m s) := by
  unfold doStepCore
  rcases hf : fetchStates m s with ⟨stF, sF, trF⟩ | ⟨s2, tr2⟩
  all_goals have h2 := fetchStates_noCTM m s b
  all_goals rw [hf] at h2
  all_goals simp only [phTrace] at h2
  all_goals dsimp only
  · simpa [coreTrace] using h2
  · rcases ha : advanceAndStep m s2 with ⟨teA, phA⟩
    have h4 := advanceAndStep_noCTM m s2 b
    rw [ha] at h4
    rcases phA with ⟨stA, sA, trA⟩ | ⟨s6, tr4⟩
    all_goals simp only [phTrace] at h4
    all_goals dsimp only
    · simp [coreTrace, h2, h4]
    · rcases hc : checkEvents m s6 with ⟨seC, steC, termC, phC⟩
      have h6 := checkEvents_noCTM m s6 b
      rw [hc] at h6
      rcases phC with ⟨stC, sC, trC⟩ | ⟨s9C, tr6⟩
      all_goals simp only [phTrace] at h6
      all_goals dsimp only
      · simp [coreTrace, h2, h4, h6]
      · simp [coreTrace, h2, h4, h6]

theorem recordOutputsAux_noCTM (m : FMUModel σ) (vars : List ScalarVariable)
    (col : Nat) : ∀ (idxs : List Nat) (output : List (List ℚ)) (c : σ) (b : Bool),
    Call.enterContinuousTimeMode b ∉ (recordOutputsAux m vars col idxs output c).2.2 := by
  intro idxs
  induction idxs with
  | nil => intro output c b; simp [recordOutputsAux]
  | cons i rest ih =>
    intro output c b
    unfold recordOutputsAux
    dsimp only
    split
    · intro hmem
      rcases List.mem_cons.1 hmem with he | he
      · cases he
      · exact ih _ _ b he
    · intro hmem
      rcases List.mem_cons.1 hmem with he | he
      · cases he
      · exact ih _ _ b he

theorem recordOutputs_noCTM (m : FMUModel σ) (vars : List ScalarVariable)
    (nVariables col : Nat) (output : List (List ℚ)) (c : σ) (b : Bool) :
    Call.enterContinuousTimeMode b ∉ (recordOutputs m vars nVariables col output c).2.2 :=
  recordOutputsAux_noCTM m vars col _ output c b

theorem doStep_guard_run (m : FMUModel σ) (fi : Nat) (s : SimulationState σ)
    (hguard : (decide (s.tEnd ≤ s.time) || s.eventInfo.terminateSimulation) = false) :
    simulationDoStep m fi s =
      (match doStepCore m s with
       | .abort st s2 tr => .ret st s2 tr
       | .stepped s9 timeEvent stateEvent stepEvent termSim tr6 =>
         if termSim then
           .ret .ok
             { s9 with eventInfo := { s9.eventInfo with terminateSimulation := true } } tr6
         else
           match handleEvents m fi timeEvent stateEvent stepEvent s9 with
           | .abort st s2 tr => .ret st s2 (tr6 ++ tr)
           | .term s2 tr => .ret .ok s2 (tr6 ++ tr)
           | .fuelGone s2 tr => .fuelGone s2 (tr6 ++ tr)
           | .ok s2 tr => finishStep m s2 (tr6 ++ tr)) := by
  unfold simulationDoStep
  rw [hguard]
  rw [if_neg Bool.false_ne_true]

theorem doStep_core_termTrue (m : FMUModel σ) (fi : Nat)
    (s s9 : SimulationState σ) (te se ste : Bool) (tr : List Call)
    (hguard : (decide (s.tEnd ≤ s.time) || s.eventInfo.terminateSimulation) = false)
    (hcore : doStepCore m s = .stepped s9 te se ste true tr) :
    simulationDoStep m fi s = .ret .ok
      { s9 with eventInfo := { s9.eventInfo with terminateSimulation := true } } tr := by
  rw [doStep_guard_run m fi s hguard, hcore]
  dsimp only
  rw [if_pos rfl]

theorem doStep_time (m : FMUModel σ) (fi : Nat) (s s9 : SimulationState σ)
    (te se ste term : Bool) (tr : List Call)
    (hguard : (decide (s.tEnd ≤ s.time) || s.eventInfo.terminateSimulation) = false)
    (hcore : doStepCore m s = .stepped s9 te se ste term tr) :
    (stepState (simulationDoStep m fi s)).time = s9.time := by
  rw [doStep_guard_run m fi s hguard, hcore]
  dsimp only
  by_cases ht : term = true
  · rw [if_pos ht]
    dsimp only [stepState]
  · rw [if_neg ht]
    have hfr := (handleEvents_frame m fi te se ste s9).1
    rcases hev : handleEvents m fi te se ste s9 with ⟨st2, s2, tr2⟩ | ⟨s2, tr2⟩
      | ⟨s2, tr2⟩ | ⟨s2, tr2⟩
    all_goals rw [hev] at hfr
    all_goals dsimp only [evState] at hfr
    all_goals dsimp only [stepState, finishStep]
    all_goals exact hfr

theorem doStep_trace_prefix (m : FMUModel σ) (fi : Nat) (s s9 : SimulationState σ)
    (te se ste term : Bool) (tr : List Call)
    (hguard : (decide (s.tEnd ≤ s.time) || s.eventInfo.terminateSimulation) = false)
    (hcore : doStepCore m s = .stepped s9 te se ste term tr) :
    ∃ rest, stepTrace (simulationDoStep m fi s) = tr ++ rest := by
  rw [doStep_guard_run m fi s hguard, hcore]
  dsimp only
  by_cases ht : term = true
  · rw [if_pos ht]
    exact ⟨[], by simp [stepTrace]⟩
  · rw [if_neg ht]
    rcases hev : handleEvents m fi te se ste s9 with ⟨st2, s2, tr2⟩ | ⟨s2, tr2⟩
      | ⟨s2, tr2⟩ | ⟨s2, tr2⟩
    · exact ⟨tr2, by dsimp only [stepTrace]⟩
    · exact ⟨tr2, by dsimp only [stepTrace]⟩
    · exact ⟨tr2 ++ (recordOutputs m s2.varList s2.nVariables s2.nSteps
        s2.output s2.component).2.2, by dsimp only [stepTrace, finishStep]; simp⟩
    · exact ⟨tr2, by dsimp only [stepTrace]⟩

theorem doStep_ctm (m : FMUModel σ) (fi : Nat) (s : SimulationState σ) (b : Bool) :
    Call.enterContinuousTimeMode b ∈ stepTrace (simulationDoStep m fi s) →
    b = false := by
  unfold simulationDoStep
  by_cases hg : (decide (s.tEnd ≤ s.time) || s.eventInfo.terminateSimulation) = true
  · rw [if_pos hg]
    intro hb
    simp [stepTrace] at hb
  · rw [if_neg hg]
    have hno := doStepCore_noCTM m s b
    rcases hcore : doStepCore m s with ⟨st, s2, tr⟩ | ⟨s9, te, se, ste, term, tr6⟩
    · rw [hcore] at hno
      simp only [coreTrace] at hno
      dsimp only [stepTrace]
      intro hb
      exact absurd hb hno
    · rw [hcore] at hno
      simp only [coreTrace] at hno
      dsimp only
      by_cases ht : term = true
      · rw [if_pos ht]
        dsimp only [stepTrace]
        intro hb
        exact absurd hb hno
      · rw [if_neg ht]
        have hev := handleEvents_ctm m fi te se ste s9 b
        rcases hhe : handleEvents m fi te se ste s9 with ⟨st2, s2, tr2⟩ | ⟨s2, tr2⟩
          | ⟨s2, tr2⟩ | ⟨s2, tr2⟩
        all_goals rw [hhe] at hev
        all_goals dsimp only [evTrace] at hev
        · dsimp only [stepTrace]
          intro hb
          rcases List.mem_append.1 hb with hb | hb
          · exact absurd hb hno
          · exact hev hb
        · dsimp only [stepTrace]
          intro hb
          rcases List.mem_append.1 hb with hb | hb
          · exact absurd hb hno
          · exact hev hb
        · dsimp only [stepTrace, finishStep]
          intro hb
          rcases List.mem_append.1 hb with hb | hb
          · rcases List.mem_append.1 hb with hb | hb
            · exact absurd hb hno
            · exact hev hb
          · exact absurd hb (recordOutputs_noCTM m _ _ _ _ _ b)
        · dsimp only [stepTrace]
          intro hb
          rcases List.mem_append.1 hb with hb | hb
          · exact absurd hb hno
          · exact hev hb

/-! ### Claim theorems -/

/-- C2: after an integration step, a state event is flagged iff some
indicator index `i < nz` has `prez[i] * z[i] < 0`; in particular the flag
stays false when every index keeps its sign or sits at an exact zero, the
whole vector being scanned. -/
theorem stateEvent_iff_zero_crossing (prez z : List ℚ) (nz : Nat)
    (hp : prez.length = nz) (hz : z.length = nz) :
    (stateEventCheck prez z = true ↔ ∃ i, i < nz ∧ prez.getD i 0 * z.getD i 0 < 0)
    ∧ ((∀ i, i < nz → 0 ≤ prez.getD i 0 * z.getD i 0) →
        stateEventCheck prez z = false) := by
  have hmain : stateEventCheck prez z = true ↔
      ∃ i, i < nz ∧ prez.getD i 0 * z.getD i 0 < 0 := by
    rw [stateEventCheck_iff, hp, hz]
    constructor
    · rintro ⟨i, hi1, _, hi3⟩; exact ⟨i, hi1, hi3⟩
    · rintro ⟨i, hi1, hi3⟩; exact ⟨i, hi1, hi1, hi3⟩
  refine ⟨hmain, ?_⟩
  intro hall
  cases hb : stateEventCheck prez z with
  | false => rfl
  | true =>
    obtain ⟨i, hi1, hi3⟩ := hmain.1 hb
    exact absurd hi3 (not_lt.2 (hall i hi1))

/-- Witness for C2: a sign flip on index 1 of a two-indicator vector is
detected, by the theorem applied at `prez = [1, -1]`, `z = [1, 1]`. -/
theorem stateEvent_iff_zero_crossing_witness :
    stateEventCheck [(1 : ℚ), -1] [(1 : ℚ), 1] = true :=
  (stateEvent_iff_zero_crossing [(1 : ℚ), -1] [(1 : ℚ), 1] 2 rfl rfl).1.mpr
    ⟨1, by decide, by with_unfolding_all decide⟩

/-- C10: calling `simulationDoStep` on an already-finished session — time
at or past `tEnd`, or termination already recorded — returns `fmi2Discard`
at once, with no model call (empty trace) and the state unchanged in every
field. -/
theorem doStep_finished_discards (m : FMUModel σ) (fuelIter : Nat)
    (s : SimulationState σ)
    (hdone : s.tEnd ≤ s.time ∨ s.eventInfo.terminateSimulation = true) :
    simulationDoStep m fuelIter s = .ret .discard s [] := by
  have hc : (decide (s.tEnd ≤ s.time) || s.eventInfo.terminateSimulation) = true := by
    rcases hdone with h | h <;> simp [h]
  unfold simulationDoStep
  rw [if_pos hc]

/-- Witness for C10: the theorem applied to the finished session
`finishedState` (time = tEnd = 1) under `baseModel`. -/
theorem doStep_finished_discards_witness :
    simulationDoStep baseModel 3 finishedState = .ret .discard finishedState [] :=
  doStep_finished_discards baseModel 3 finishedState (Or.inl (by with_unfolding_all decide))

/-- C3: in a step that runs (session not finished, states and derivatives
fetched), the time event flag is exactly `nextEventTimeDefined` and
`min(time + h, tEnd) ≥ nextEventTime`; when it is set the stepped session's
time is exactly `nextEventTime` (no overshoot), and the session
`simulationDoStep` returns carries exactly that stepped time. -/
theorem timeEvent_exact_clamp (m : FMUModel σ) (fi : Nat)
    (s s9 : SimulationState σ) (te se ste term : Bool) (tr : List Call)
    (hguard : (decide (s.tEnd ≤ s.time) || s.eventInfo.terminateSimulation) = false)
    (hcore : doStepCore m s = .stepped s9 te se ste term tr) :
    te = (s.eventInfo.nextEventTimeDefined
        && decide (s.eventInfo.nextEventTime ≤ min (s.time + s.h) s.tEnd))
    ∧ (te = true → s9.time = s.eventInfo.nextEventTime)
    ∧ (stepState (simulationDoStep m fi s)).time = s9.time := by
  have hs := doStepCore_stepped m s s9 te se ste term tr hcore
  dsimp only at hs
  obtain ⟨hte, hse, h9, htr⟩ := hs
  refine ⟨?_, ?_, doStep_time m fi s s9 te se ste term tr hguard hcore⟩
  · rw [hte]
    rfl
  · intro h
    rw [hte] at h
    rw [h9]
    dsimp only
    unfold advanceTime at h ⊢
    dsimp only at h ⊢
    rw [if_pos h]

/-- Witness for C3: under `baseModel`, stepping `pendingEventState`
(time = 1/4, h = 1/4, a time event scheduled at 3/8) flags the time event
and clamps the step's time to exactly 3/8. -/
theorem timeEvent_exact_clamp_witness :
    (true : Bool) = (pendingEventState.eventInfo.nextEventTimeDefined &&
      decide (pendingEventState.eventInfo.nextEventTime ≤
        min (pendingEventState.time + pendingEventState.h) pendingEventState.tEnd))
    ∧ ((true : Bool) = true →
        ({ pendingEventState with component := 7/8, x := [7/8], xdot := [-1], time := 3/8 } : SimulationState ℚ).time
          = pendingEventState.eventInfo.nextEventTime)
    ∧ (stepState (simulationDoStep baseModel 2 pendingEventState)).time
        = ({ pendingEventState with component := 7/8, x := [7/8], xdot := [-1], time := 3/8 } : SimulationState ℚ).time :=
  timeEvent_exact_clamp baseModel 2 pendingEventState
    { pendingEventState with component := 7/8, x := [7/8], xdot := [-1], time := 3/8 }
    true false false false
    [.getContinuousStates [1], .getDerivatives [-1], .setTime (3/8),
     .setContinuousStates [7/8], .getEventIndicators [],
     .completedIntegratorStep false false]
    (by with_unfolding_all decide) (by with_unfolding_all decide)

/-- C5: each step applies forward Euler with the actual elapsed increment
`dt = time - tPre` (the event-clamped new time minus the time before the
step): the stepped session's state vector is
`eulerUpdate x xdot dt`, that very vector is pushed to the model by
`setContinuousStates` right after `setTime` (the trace starts with the four
calls in order), and pointwise the update equals the exact solution of a
constant-derivative initial-value problem at the new time. -/
theorem euler_actual_increment (m : FMUModel σ) (fi : Nat)
    (s s9 : SimulationState σ) (te se ste term : Bool) (tr : List Call)
    (hguard : (decide (s.tEnd ≤ s.time) || s.eventInfo.terminateSimulation) = false)
    (hcore : doStepCore m s = .stepped s9 te se ste term tr) :
    let xg := (m.getContinuousStates s.component).2.1
    let xd := (m.getDerivatives (m.getContinuousStates s.component).2.2).2.1
    let tNew := (advanceTime s.time s.h s.tEnd s.eventInfo).2
    s9.x = eulerUpdate xg xd (tNew - s.time)
    ∧ (∃ rest, stepTrace (simulationDoStep m fi s)
        = [.getContinuousStates xg, .getDerivatives xd, .setTime tNew,
           .setContinuousStates (eulerUpdate xg xd (tNew - s.time))] ++ rest)
    ∧ (∀ i, i < xg.length → i < xd.length →
        (eulerUpdate xg xd (tNew - s.time)).getD i 0
          = constFlow (xg.getD i 0) (xd.getD i 0) s.time tNew) := by
  intro xg xd tNew
  have hs := doStepCore_stepped m s s9 te se ste term tr hcore
  dsimp only at hs
  obtain ⟨hte, hse, h9, htr⟩ := hs
  refine ⟨?_, ?_, ?_⟩
  · rw [h9]
  · obtain ⟨rest, hrest⟩ := doStep_trace_prefix m fi s s9 te se ste term tr hguard hcore
    refine ⟨[.getEventIndicators (m.getEventIndicators (m.setContinuousStates
      (eulerUpdate xg xd (tNew - s.time))
      (m.setTime tNew (m.getDerivatives (m.getContinuousStates s.component).2.2).2.2).2).2).2.1,
      .completedIntegratorStep ste term] ++ rest, ?_⟩
    rw [hrest, htr]
    simp
  · intro i hi1 hi2
    rw [eulerUpdate_getD xg xd (tNew - s.time) i hi1 hi2]
    unfold constFlow
    rfl

/-- Witness for C5: under `baseModel`, stepping `pendingEventState` updates
the single state with the clamped increment dt = 3/8 - 1/4 = 1/8 (x goes
from 1 to 7/8), the trace opens with the four calls, and the update matches
the exact constant-derivative solution, by the theorem applied at that
session. -/
theorem euler_actual_increment_witness :
    let xg := (baseModel.getContinuousStates pendingEventState.component).2.1
    let xd := (baseModel.getDerivatives
      (baseModel.getContinuousStates pendingEventState.component).2.2).2.1
    let tNew := (advanceTime pendingEventState.time pendingEventState.h
      pendingEventState.tEnd pendingEventState.eventInfo).2
    ({ pendingEventState with component := 7/8, x := [7/8], xdot := [-1], time := 3/8 } : SimulationState ℚ).x
      = eulerUpdate xg xd (tNew - pendingEventState.time)
    ∧ (∃ rest, stepTrace (simulationDoStep baseModel 2 pendingEventState)
        = [.getContinuousStates xg, .getDerivatives xd, .setTime tNew,
           .setContinuousStates (eulerUpdate xg xd (tNew - pendingEventState.time))] ++ rest)
    ∧ (∀ i, i < xg.length → i < xd.length →
        (eulerUpdate xg xd (tNew - pendingEventState.time)).getD i 0
          = constFlow (xg.getD i 0) (xd.getD i 0) pendingEventState.time tNew) :=
  euler_actual_increment baseModel 2 pendingEventState
    { pendingEventState with component := 7/8, x := [7/8], xdot := [-1], time := 3/8 }
    true false false false
    [.getContinuousStates [1], .getDerivatives [-1], .setTime (3/8),
     .setContinuousStates [7/8], .getEventIndicators [],
     .completedIntegratorStep false false]
    (by with_unfolding_all decide) (by with_unfolding_all decide)

/-- C4: the discrete-update iteration calls `newDiscreteStates` exactly
while `newDiscreteStatesNeeded && !terminateSimulation` holds (every trace
entry before the last reports the loop condition still true), terminates
with a `done` outcome whenever the model reports
`newDiscreteStatesNeeded = false` (or requests termination) within the
given number of calls, every `done` outcome has the loop condition false,
and `enterContinuousTimeMode` is never called by a step while
`newDiscreteStatesNeeded` is still true (every such trace entry carries a
false flag). -/
theorem discrete_update_discipline (m : FMUModel σ) (fuel : Nat)
    (ei : Fmi2EventInfo) (c : σ)
    (hconv : convergesWithin m fuel ei c = true) :
    (∃ ei2 c2, (eventIteration m fuel ei c).1 = .done ei2 c2)
    ∧ (∀ (fuel2 : Nat) (ei1 : Fmi2EventInfo) (c1 : σ) (ei2 : Fmi2EventInfo) (c2 : σ),
        (eventIteration m fuel2 ei1 c1).1 = .done ei2 c2 →
        ei2.newDiscreteStatesNeeded = false ∨ ei2.terminateSimulation = true)
    ∧ (∀ (fuel2 : Nat) (ei1 : Fmi2EventInfo) (c1 : σ),
        ((eventIteration m fuel2 ei1 c1).2.dropLast.all
          (fun e => match e with
            | .newDiscreteStates nb tb => nb && !tb
            | _ => true)) = true)
    ∧ (∀ (fi : Nat) (s : SimulationState σ) (b : Bool),
        Call.enterContinuousTimeMode b ∈ stepTrace (simulationDoStep m fi s) →
        b = false) :=
  ⟨eventIteration_converges m fuel ei c hconv,
   fun fuel2 ei1 c1 ei2 c2 => eventIteration_done_flags m fuel2 ei1 c1 ei2 c2,
   fun fuel2 ei1 c1 => eventIteration_dropLast m fuel2 ei1 c1,
   fun fi s b => doStep_ctm m fi s b⟩

/-- Witness for C4: `baseModel` reports `newDiscreteStatesNeeded = false`
on the first call, so the iteration from the initial event info converges
within one call. -/
theorem discrete_update_discipline_witness :
    (∃ ei2 c2, (eventIteration baseModel 1 initialEventInfo (1 : ℚ)).1 = .done ei2 c2)
    ∧ (∀ (fuel2 : Nat) (ei1 : Fmi2EventInfo) (c1 : ℚ) (ei2 : Fmi2EventInfo) (c2 : ℚ),
        (eventIteration baseModel fuel2 ei1 c1).1 = .done ei2 c2 →
        ei2.newDiscreteStatesNeeded = false ∨ ei2.terminateSimulation = true)
    ∧ (∀ (fuel2 : Nat) (ei1 : Fmi2EventInfo) (c1 : ℚ),
        ((eventIteration baseModel fuel2 ei1 c1).2.dropLast.all
          (fun e => match e with
            | .newDiscreteStates nb tb => nb && !tb
            | _ => true)) = true)
    ∧ (∀ (fi : Nat) (s : SimulationState ℚ) (b : Bool),
        Call.enterContinuousTimeMode b ∈ stepTrace (simulationDoStep baseModel fi s) →
        b = false) :=
  discrete_update_discipline baseModel 1 initialEventInfo 1
    (by with_unfolding_all decide)

/-- C7: when `completedIntegratorStep` reports `terminateSimulation = true`
for a step, `simulationDoStep` returns `fmi2OK` at once with the session
marked terminated: no event handling happens — `enterEventMode`,
`newDiscreteStates` and `enterContinuousTimeMode` are absent from the
step's trace, no event counter is incremented, and no output column is
recorded. -/
theorem terminate_priority (m : FMUModel σ) (fi : Nat)
    (s s9 : SimulationState σ) (te se ste : Bool) (tr : List Call)
    (hguard : (decide (s.tEnd ≤ s.time) || s.eventInfo.terminateSimulation) = false)
    (hcore : doStepCore m s = .stepped s9 te se ste true tr) :
    simulationDoStep m fi s = .ret .ok
      { s9 with eventInfo := { s9.eventInfo with terminateSimulation := true } } tr
    ∧ s9.nTimeEvents = s.nTimeEvents ∧ s9.nStateEvents = s.nStateEvents
    ∧ s9.nStepEvents = s.nStepEvents ∧ s9.nSteps = s.nSteps ∧ s9.output = s.output
    ∧ Call.enterEventMode ∉ tr
    ∧ (∀ nb tb, Call.newDiscreteStates nb tb ∉ tr)
    ∧ (∀ b, Call.enterContinuousTimeMode b ∉ tr) := by
  have hs := doStepCore_stepped m s s9 te se ste true tr hcore
  dsimp only at hs
  obtain ⟨hte, hse, h9, htr⟩ := hs
  refine ⟨doStep_core_termTrue m fi s s9 te se ste tr hguard hcore,
    ?_, ?_, ?_, ?_, ?_, ?_, ?_, ?_⟩
  · rw [h9]
  · rw [h9]
  · rw [h9]
  · rw [h9]
  · rw [h9]
  · rw [htr]; simp
  · intro nb tb; rw [htr]; simp
  · intro b; rw [htr]; simp

/-- Witness for C7: under `stepTerminateModel` (whose
`completedIntegratorStep` reports termination), stepping
`pendingEventState` returns OK with the session marked terminated and an
event-free trace. -/
theorem terminate_priority_witness :
    simulationDoStep stepTerminateModel 2 pendingEventState = .ret .ok
      { ({ pendingEventState with component := 7/8, x := [7/8], xdot := [-1], time := 3/8 } : SimulationState ℚ) with
        eventInfo := { ({ pendingEventState with component := 7/8, x := [7/8], xdot := [-1], time := 3/8 } : SimulationState ℚ).eventInfo with
          terminateSimulation := true } }
      [.getContinuousStates [1], .getDerivatives [-1], .setTime ((3 : ℚ)/8),
       .setContinuousStates [7/8], .getEventIndicators [],
       .completedIntegratorStep true true]
    ∧ ({ pendingEventState with component := 7/8, x := [7/8], xdot := [-1], time := 3/8 } : SimulationState ℚ).nTimeEvents = pendingEventState.nTimeEvents
    ∧ ({ pendingEventState with component := 7/8, x := [7/8], xdot := [-1], time := 3/8 } : SimulationState ℚ).nStateEvents = pendingEventState.nStateEvents
    ∧ ({ pendingEventState with component := 7/8, x := [7/8], xdot := [-1], time := 3/8 } : SimulationState ℚ).nStepEvents = pendingEventState.nStepEvents
    ∧ ({ pendingEventState with component := 7/8, x := [7/8], xdot := [-1], time := 3/8 } : SimulationState ℚ).nSteps = pendingEventState.nSteps
    ∧ ({ pendingEventState with component := 7/8, x := [7/8], xdot := [-1], time := 3/8 } : SimulationState ℚ).output = pendingEventState.output
    ∧ Call.enterEventMode ∉
        [Call.getContinuousStates [(1 : ℚ)], .getDerivatives [-1], .setTime ((3 : ℚ)/8),
         .setContinuousStates [7/8], .getEventIndicators [],
         .completedIntegratorStep true true]
    ∧ (∀ nb tb, Call.newDiscreteStates nb tb ∉
        [Call.getContinuousStates [(1 : ℚ)], .getDerivatives [-1], .setTime ((3 : ℚ)/8),
         .setContinuousStates [7/8], .getEventIndicators [],
         .completedIntegratorStep true true])
    ∧ (∀ b, Call.enterContinuousTimeMode b ∉
        [Call.getContinuousStates [(1 : ℚ)], .getDerivatives [-1], .setTime ((3 : ℚ)/8),
         .setContinuousStates [7/8], .getEventIndicators [],
         .completedIntegratorStep true true]) :=
  terminate_priority stepTerminateModel 2 pendingEventState
    { pendingEventState with component := 7/8, x := [7/8], xdot := [-1], time := 3/8 }
    true false true
    [.getContinuousStates [1], .getDerivatives [-1], .setTime (3/8),
     .setContinuousStates [7/8], .getEventIndicators [],
     .completedIntegratorStep true true]
    (by with_unfolding_all decide) (by with_unfolding_all decide)

/-! ### Driver-equivalence lemmas (C1) -/

theorem writeOut_length (out : List (List ℚ)) (r c : Nat) (v : ℚ) :
    (writeOut out r c v).length = out.length := by
  simp [writeOut]

theorem recordOutputsAux_length (m : FMUModel σ) (vars : List ScalarVariable)
    (col : Nat) : ∀ (idxs : List Nat) (out : List (List ℚ)) (c : σ),
    ((recordOutputsAux m vars col idxs out c).1).length = out.length := by
  intro idxs
  induction idxs with
  | nil => intro out c; simp [recordOutputsAux]
  | cons i rest ih =>
    intro out c
    unfold recordOutputsAux
    dsimp only
    split
    · rw [ih]
      exact writeOut_length out (i + 1) col _
    · rw [ih]
      exact writeOut_length out (i + 1) col _

theorem recordOutputs_length (m : FMUModel σ) (vars : List ScalarVariable)
    (nVariables col : Nat) (out : List (List ℚ)) (c : σ) :
    ((recordOutputs m vars nVariables col out c).1).length = out.length :=
  recordOutputsAux_length m vars col _ out c

theorem map_take_zero (l : List (List ℚ)) :
    l.map (fun row => row.take 0) = List.replicate l.length [] := by
  induction l with
  | nil => rfl
  | cons hd tl ih => simp [ih, List.replicate_succ]

theorem bodyAgrees (m : FMUModel σ) (fi : Nat) (s : SimulationState σ)
    (hterm : s.eventInfo.terminateSimulation = false)
    (hrun : s.time < s.tEnd) :
    (∃ st s2 tr, statusAbort st = true
        ∧ simulationDoStep m fi s = .ret st s2 tr
        ∧ simulateBody m fi s = .failure st s2 tr) ∨
    (∃ s2 s2b tr, simulationDoStep m fi s = .ret .ok s2 tr
        ∧ s2.eventInfo.terminateSimulation = true
        ∧ simulateBody m fi s = .stop s2b tr ∧ obsOf s2b = obsOf s2) ∨
    (∃ s2 tr, simulationDoStep m fi s = .ret .ok s2 tr
        ∧ s2.eventInfo.terminateSimulation = false
        ∧ simulateBody m fi s = .next s2 tr) ∨
    (∃ s2 tr, simulationDoStep m fi s = .fuelGone s2 tr
        ∧ simulateBody m fi s = .fuelGone s2 tr) := by
  have hguard : (decide (s.tEnd ≤ s.time) || s.eventInfo.terminateSimulation) = false := by
    simp [hterm, not_le.2 hrun]
  have hds := doStep_guard_run m fi s hguard
  have hbody : simulateBody m fi s
      = (match doStepCore m s with
         | .abort st s2 tr => BodyOut.failure st s2 tr
         | .stepped s9 timeEvent stateEvent stepEvent termSim tr6 =>
           if termSim then .stop s9 tr6
           else
             match handleEvents m fi timeEvent stateEvent stepEvent s9 with
             | .abort st s2 tr => .failure st s2 (tr6 ++ tr)
             | .term s2 tr => .stop s2 (tr6 ++ tr)
             | .fuelGone s2 tr => .fuelGone s2 (tr6 ++ tr)
             | .ok s2 tr => finishBody m s2 (tr6 ++ tr)) := rfl
  rcases hcore : doStepCore m s with ⟨st, s2, tr⟩ | ⟨s9, te, se, ste, term, tr6⟩
  · rw [hcore] at hds hbody
    dsimp only at hds hbody
    exact Or.inl ⟨st, s2, tr, doStepCore_abort_status m s s2 st tr hcore, hds, hbody⟩
  · rw [hcore] at hds hbody
    dsimp only at hds hbody
    have hs9ei : s9.eventInfo = s.eventInfo := by
      have hsp := doStepCore_stepped m s s9 te se ste term tr6 hcore
      dsimp only at hsp
      rw [hsp.2.2.1]
    by_cases ht : term = true
    · rw [if_pos ht] at hds hbody
      exact Or.inr (Or.inl ⟨_, s9, tr6, hds, rfl, hbody, rfl⟩)
    · rw [if_neg ht] at hds hbody
      rcases hev : handleEvents m fi te se ste s9 with ⟨st2, s2, tr2⟩ | ⟨s2, tr2⟩
        | ⟨s2, tr2⟩ | ⟨s2, tr2⟩
      all_goals rw [hev] at hds hbody
      all_goals dsimp only at hds hbody
      · exact Or.inl ⟨st2, s2, tr6 ++ tr2,
          handleEvents_abort_status m fi te se ste s9 s2 st2 tr2 hev, hds, hbody⟩
      · exact Or.inr (Or.inl ⟨s2, s2, tr6 ++ tr2, hds,
          handleEvents_term_flag m fi te se ste s9 s2 tr2 hev, hbody, rfl⟩)
      · have hterm2 : s2.eventInfo.terminateSimulation = false := by
          rcases handleEvents_ok_ei m fi te se ste s9 s2 tr2 hev with hx | hx
          · exact hx
          · rw [hx, hs9ei]; exact hterm
        unfold finishStep at hds
        unfold finishBody at hbody
        dsimp only at hds hbody
        exact Or.inr (Or.inr (Or.inl ⟨_, _, hds, hterm2, hbody⟩))
      · exact Or.inr (Or.inr (Or.inr ⟨_, _, hds, hbody⟩))

theorem stepLoop_term (m : FMUModel σ) (fi : Nat) :
    ∀ (f : Nat) (s : SimulationState σ),
    s.eventInfo.terminateSimulation = true → stepLoop m fi f s = .done s [] := by
  intro f s hterm
  cases f <;> simp [stepLoop, hterm]

theorem loopAgrees (m : FMUModel σ) (fi : Nat) :
    ∀ (fuel : Nat) (s : SimulationState σ),
    s.eventInfo.terminateSimulation = false →
    loopObs (simulateLoop m fi fuel s) = runObs (stepLoop m fi fuel s) := by
  intro fuel
  induction fuel with
  | zero =>
    intro s hterm
    by_cases hrun : s.time < s.tEnd <;>
      simp [simulateLoop, stepLoop, hrun, hterm, loopObs, runObs]
  | succ n ih =>
    intro s hterm
    by_cases hrun : s.time < s.tEnd
    · rcases bodyAgrees m fi s hterm hrun with
        ⟨st, s2, tr, hab, hds, hbd⟩ | ⟨s2, s2b, tr, hds, ht2, hbd, hobs⟩
        | ⟨s2, tr, hds, ht2, hbd⟩ | ⟨s2, tr, hds, hbd⟩
      · simp [simulateLoop, stepLoop, hrun, hterm, hbd, hds, hab, loopObs, runObs]
      · have hst := stepLoop_term m fi n s2 ht2
        have hok : statusAbort Fmi2Status.ok = false := rfl
        simp [simulateLoop, stepLoop, hrun, hterm, hbd, hds, hst, hok, loopObs,
          runObs, hobs]
      · have ih2 := ih s2 ht2
        have hok : statusAbort Fmi2Status.ok = false := rfl
        simp only [simulateLoop, stepLoop, hrun, hterm, if_true, hbd, hds, hok,
          Bool.false_eq_true, if_false, and_self, and_true, if_pos]
        rcases hsl : simulateLoop m fi n s2 with ⟨s3, tr3⟩ | ⟨st3, s3, tr3⟩ | ⟨s3, tr3⟩ <;>
          rcases hstp : stepLoop m fi n s2 with ⟨s4, tr4⟩ | ⟨s4, tr4⟩ <;>
          rw [hsl, hstp] at ih2 <;>
          simp [loopObs, runObs] at ih2 ⊢ <;>
          simp [ih2]
      · simp [simulateLoop, stepLoop, hrun, hterm, hbd, hds, loopObs, runObs]
    · simp [simulateLoop, stepLoop, hrun, hterm, loopObs, runObs]

theorem preludeAgrees (m : FMUModel σ) (tEnd h : ℚ) (fi : Nat) :
    (∃ tr tr2, simulatePrelude m tEnd h fi = .failedEarly tr
        ∧ initializeSimulation m tEnd h fi = .failed tr2) ∨
    (∃ tr tr2, simulatePrelude m tEnd h fi = .fuelGoneInit tr
        ∧ initializeSimulation m tEnd h fi = .fuelGoneInit tr2) ∨
    (∃ s s2 tr tr2, simulatePrelude m tEnd h fi = .termAtInit s tr
        ∧ initializeSimulation m tEnd h fi = .ready s2 tr2
        ∧ s.eventInfo.terminateSimulation = true
        ∧ s2.eventInfo.terminateSimulation = true
        ∧ s.time = 0 ∧ s2.time = 0
        ∧ s.nSteps = 0 ∧ s2.nSteps = 0
        ∧ s.nTimeEvents = 0 ∧ s2.nTimeEvents = 0
        ∧ s.nStateEvents = 0 ∧ s2.nStateEvents = 0
        ∧ s.nStepEvents = 0 ∧ s2.nStepEvents = 0
        ∧ s.output.length = s2.output.length) ∨
    (∃ s tr tr2, simulatePrelude m tEnd h fi = .ready s tr
        ∧ initializeSimulation m tEnd h fi = .ready s tr2
        ∧ s.eventInfo.terminateSimulation = false) := by
  unfold simulatePrelude initializeSimulation
  cases hinst : m.instantiate with
  | none => exact Or.inl ⟨_, _, rfl, rfl⟩
  | some c0 =>
    dsimp only
    by_cases h1 : statusAbort (m.setupExperiment c0).1 = true
    · rw [if_pos h1, if_pos h1]
      exact Or.inl ⟨_, _, rfl, rfl⟩
    · rw [if_neg h1, if_neg h1]
      by_cases h2 : statusAbort (m.enterInitializationMode (m.setupExperiment c0).2).1 = true
      · rw [if_pos h2, if_pos h2]
        exact Or.inl ⟨_, _, rfl, rfl⟩
      · rw [if_neg h2, if_neg h2]
        by_cases h3 : statusAbort (m.exitInitializationMode
            (m.enterInitializationMode (m.setupExperiment c0).2).2).1 = true
        · rw [if_pos h3, if_pos h3]
          exact Or.inl ⟨_, _, rfl, rfl⟩
        · rw [if_neg h3, if_neg h3]
          rcases hit : eventIteration m fi initialEventInfo
              (m.exitInitializationMode
                (m.enterInitializationMode (m.setupExperiment c0).2).2).2 with ⟨res, itr⟩
          rcases res with ⟨st, ei, c⟩ | ⟨ei, c⟩ | ⟨ei, c⟩
          · exact Or.inl ⟨_, _, rfl, rfl⟩
          · dsimp only
            by_cases hterm : ei.terminateSimulation = true
            · rw [if_pos hterm, if_pos hterm]
              refine Or.inr (Or.inr (Or.inl ⟨_, _, _, _, rfl, rfl, hterm, hterm,
                rfl, rfl, rfl, rfl, rfl, rfl, rfl, rfl, rfl, rfl, ?_⟩))
              rw [recordOutputs_length]
            · rw [if_neg hterm, if_neg hterm]
              by_cases h4 : statusAbort (m.enterContinuousTimeMode c).1 = true
              · rw [if_pos h4, if_pos h4]
                exact Or.inl ⟨_, _, rfl, rfl⟩
              · rw [if_neg h4, if_neg h4]
                refine Or.inr (Or.inr (Or.inr ⟨_, _, _, rfl, rfl, ?_⟩))
                simp only [Bool.not_eq_true] at hterm
                exact hterm
          · exact Or.inr (Or.inl ⟨_, _, rfl, rfl⟩)

/-- C1: for every step size `h > 0` and identical model, start time (0) and
end time, the run-to-completion driver (`simulate`, src/main.c 164-437) and
the externally-stepped driver (`initializeSimulation` followed by the
repeated-`simulationDoStep` loop of `main`'s Step branch) produce identical
sequences of recorded output values, identical final times, and identical
counts of steps, time events, state events and step events — for any fuel
bounds, i.e. also at every finite prefix of a diverging run. -/
theorem modes_equivalent (m : FMUModel σ) (tEnd h : ℚ) (fi fo : Nat)
    (hh : 0 < h) :
    recorded (simulate m tEnd h fi fo) = recorded (runStepMode m tEnd h fi fo)
    ∧ (simulate m tEnd h fi fo).finalTime = (runStepMode m tEnd h fi fo).finalTime
    ∧ (simulate m tEnd h fi fo).nSteps = (runStepMode m tEnd h fi fo).nSteps
    ∧ (simulate m tEnd h fi fo).nTimeEvents = (runStepMode m tEnd h fi fo).nTimeEvents
    ∧ (simulate m tEnd h fi fo).nStateEvents = (runStepMode m tEnd h fi fo).nStateEvents
    ∧ (simulate m tEnd h fi fo).nStepEvents = (runStepMode m tEnd h fi fo).nStepEvents := by
  clear hh
  rcases preludeAgrees m tEnd h fi with
    ⟨tr, tr2, hp, hi⟩ | ⟨tr, tr2, hp, hi⟩
    | ⟨s, s2, tr, tr2, hp, hi, ht1, ht2, hA, hB, hC, hD, hE, hF, hG, hH, hI, hJ, hlen⟩
    | ⟨s, tr, tr2, hp, hi, hterm⟩
  · have e1 : simulate m tEnd h fi fo = earlyFail m tr := by
      unfold simulate; rw [hp]
    have e2 : runStepMode m tEnd h fi fo = earlyFail m tr2 := by
      unfold runStepMode; rw [hi]
    rw [e1, e2]
    exact ⟨rfl, rfl, rfl, rfl, rfl, rfl⟩
  · have e1 : simulate m tEnd h fi fo = earlyFuelGone m tr := by
      unfold simulate; rw [hp]
    have e2 : runStepMode m tEnd h fi fo = earlyFuelGone m tr2 := by
      unfold runStepMode; rw [hi]
    rw [e1, e2]
    exact ⟨rfl, rfl, rfl, rfl, rfl, rfl⟩
  · have e1 : simulate m tEnd h fi fo = simulateCleanup m s tr := by
      unfold simulate; rw [hp]
    have e0 : stepLoop m fi fo s2 = .done s2 [] := stepLoop_term m fi fo s2 ht2
    have e2 : runStepMode m tEnd h fi fo = cleanupSimulation m s2 (tr2 ++ []) := by
      unfold runStepMode; rw [hi]; dsimp only; rw [e0]
    rw [e1, e2]
    unfold simulateCleanup cleanupSimulation mkResult
    dsimp only
    split <;>
      simp [recorded, hA, hB, hC, hD, hE, hF, hG, hH, hI, hJ, map_take_zero, hlen]
  · have hlo := loopAgrees m fi fo s hterm
    have e1 : simulate m tEnd h fi fo = (match simulateLoop m fi fo s with
        | .finished s2 tr2b => simulateCleanup m s2 (tr ++ tr2b)
        | .failed _ s2 tr2b => mkResult false false s2 (tr ++ tr2b)
        | .fuelGone s2 tr2b => mkResult false true s2 (tr ++ tr2b)) := by
      unfold simulate; rw [hp]
    have e2 : runStepMode m tEnd h fi fo = (match stepLoop m fi fo s with
        | .done s2 tr2b => cleanupSimulation m s2 (tr2 ++ tr2b)
        | .fuelGone s2 tr2b => mkResult false true s2 (tr2 ++ tr2b)) := by
      unfold runStepMode; rw [hi]
    rw [e1, e2]
    rcases hsl : simulateLoop m fi fo s with ⟨s3, tr3⟩ | ⟨st3, s3, tr3⟩ | ⟨s3, tr3⟩ <;>
      rcases hst : stepLoop m fi fo s with ⟨s4, tr4⟩ | ⟨s4, tr4⟩ <;>
      rw [hsl, hst] at hlo <;>
      simp [loopObs, runObs, obsOf, Prod.mk.injEq, Obs.mk.injEq] at hlo
    · obtain ⟨hT, hS, hTE, hSE, hStE, hO⟩ := hlo
      dsimp only
      unfold simulateCleanup cleanupSimulation mkResult
      dsimp only
      split <;> simp [recorded, hT, hS, hTE, hSE, hStE, hO]
    · obtain ⟨hT, hS, hTE, hSE, hStE, hO⟩ := hlo
      dsimp only
      unfold cleanupSimulation mkResult
      dsimp only
      simp [recorded, hT, hS, hTE, hSE, hStE, hO]
    · obtain ⟨hT, hS, hTE, hSE, hStE, hO⟩ := hlo
      dsimp only
      unfold mkResult
      dsimp only
      simp [recorded, hT, hS, hTE, hSE, hStE, hO]

/-- Witness for C1: the equivalence instantiated at `baseModel` with
`tEnd = 1`, `h = 1`, with the hypothesis `0 < h` discharged concretely. -/
theorem modes_equivalent_witness :
    (0:ℚ) < 1
    ∧ (recorded (simulate baseModel 1 1 4 8) = recorded (runStepMode baseModel 1 1 4 8)
    ∧ (simulate baseModel 1 1 4 8).finalTime = (runStepMode baseModel 1 1 4 8).finalTime
    ∧ (simulate baseModel 1 1 4 8).nSteps = (runStepMode baseModel 1 1 4 8).nSteps
    ∧ (simulate baseModel 1 1 4 8).nTimeEvents = (runStepMode baseModel 1 1 4 8).nTimeEvents
    ∧ (simulate baseModel 1 1 4 8).nStateEvents = (runStepMode baseModel 1 1 4 8).nStateEvents
    ∧ (simulate baseModel 1 1 4 8).nStepEvents = (runStepMode baseModel 1 1 4 8).nStepEvents) :=
  ⟨by norm_num, modes_equivalent baseModel 1 1 4 8 (by norm_num)⟩

/-- C6 (code bug): with a model whose `setupExperiment` returns `fmi2Error`,
the run-to-completion driver `simulate` aborts the run but never calls
`freeInstance` — the instance obtained by a successful `instantiate` is
leaked — whereas the externally-stepped driver's `initializeSimulation`
does release it on the same failure. -/
theorem setup_failure_leaks_instance :
    setupFailModel.instantiate ≠ none
    ∧ (simulate setupFailModel 1 1 2 2).ok = false
    ∧ (simulate setupFailModel 1 1 2 2).trace.count .instantiate = 1
    ∧ (simulate setupFailModel 1 1 2 2).trace.count .setupExperiment = 1
    ∧ (simulate setupFailModel 1 1 2 2).trace.count .freeInstance = 0
    ∧ (runStepMode setupFailModel 1 1 2 2).trace.count .freeInstance = 1 := by
  refine ⟨?_, ?_, ?_, ?_, ?_, ?_⟩ <;> with_unfolding_all decide

/-- C8 (code bug): the output rows are allocated with
`(int)tEnd/h + 10` entries and every recorded step writes at column
`nSteps` with no bounds check.  For `tEnd = 3/4`, `h = 1/20` the capacity
is 10 (the `(int)` cast truncates `tEnd` to 0) but the run records 15
steps, so columns 10..14 are written past the allocation. -/
theorem output_capacity_overflow :
    outCap (3/4) (1/20) = 10
    ∧ (simulate baseModel (3/4) (1/20) 2 20).nSteps = 15
    ∧ ((simulate baseModel (3/4) (1/20) 2 20).output.getD 1 []).length
        = outCap (3/4) (1/20)
    ∧ ¬((simulate baseModel (3/4) (1/20) 2 20).nSteps ≤ outCap (3/4) (1/20)) := by
  refine ⟨?_, ?_, ?_, ?_⟩ <;> with_unfolding_all decide

/-- C9 (code bug): the per-step recording loop
`for (i = 0; i < nVariables - 1; i++)` visits index set
`range (nVariables - 1)`, skipping the last declared variable: with the
two-variable model whose second variable reads 7, the value 7 is never
stored anywhere in the output buffer of a completed run. -/
theorem last_variable_skipped :
    (simulate twoValueModel 1 1 2 3).nSteps = 1
    ∧ twoValueModel.varList.length = 2
    ∧ (twoValueModel.getReal 1 (1 : ℚ)).1 = 7
    ∧ (∀ row ∈ (simulate twoValueModel 1 1 2 3).output, (7 : ℚ) ∉ row)
    ∧ List.range (2 - 1) ≠ List.range 2 := by
  refine ⟨?_, ?_, ?_, ?_, ?_⟩ <;> with_unfolding_all decide

end FMUSim
